import Mathlib

/-!
# golog native bridge: signatures, validation and foreign-call dispatch

A shallow embedding of `native/methods.go`.  Host-side collaborators whose
sources are not part of `methods.go` (the term package, the decoder, the
encoder, the watchers, `gpName`) are either modelled from the specification
(and marked so) or taken as the fields of a `Runtime` record.

Conventions of the embedding:
* a dispatcher is a function from the state of the world (host memory and
  the record of decoder calls and invocations) to a result and a new state;
* a Go panic is a result of its own (`none`, or `Outcome.panics`), never a
  missing case;
* the decoder and the encoder are functions of their arguments, and a wrapped
  method is a total function of its arguments and the host memory;
* of `reflect`, the embedding uses that `New` returns a pointer Value, that
  `Value.Set` panics on a value that is not assignable, that `Value.Field`
  panics on a Value that is not a struct, and that `Type.In` panics on an
  index out of range.
-/

namespace Native

/-! ## Terms (external `term` package) -/

/-- Modelled from the spec: the type tags reported by `term.Term.Type()`.
The declaration of the tags is in the `term` package; they are the six tags
that `methods.go` names.  There is no tag for strings: a String term is a
Compound (see `Term.String`). -/
inductive TermType where
  | VariableType
  | FloatType
  | IntegerType
  | AtomType
  | CompoundType
  | ErrorType
  deriving DecidableEq, Repr

/-- The kinds of `reflect.Kind` that `methods.go` distinguishes, with a few
representatives of the remaining ones. -/
inductive Kind where
  | Bool
  | Int
  | Float64
  | String
  | Struct
  | Interface
  | Func
  | Array
  | Chan
  | Map
  | Ptr
  | Slice
  deriving DecidableEq, Repr

/-- The kinds of host types that have no element type. -/
inductive BaseKind where
  | Bool
  | Int
  | Float64
  | String
  | Struct
  | Interface
  | Func
  deriving DecidableEq, Repr

/-- The kinds of host types that have an element type (`reflect.Type.Elem`). -/
inductive ElemKind where
  | Array
  | Chan
  | Map
  | Ptr
  | Slice
  deriving DecidableEq, Repr

/-- A host type as seen through `reflect.Type`: its package path, its name
(empty for an unnamed type), its kind and, for the kinds that have one, its
element type. -/
inductive GoType where
  | base (pkg : String) (name : String) (kind : BaseKind)
  | over (pkg : String) (name : String) (kind : ElemKind) (elem : GoType)
  deriving Repr

/-- The embedding of a base kind into `reflect.Kind`. -/
def BaseKind.toKind : BaseKind → Kind
  | .Bool => .Bool
  | .Int => .Int
  | .Float64 => .Float64
  | .String => .String
  | .Struct => .Struct
  | .Interface => .Interface
  | .Func => .Func

/-- The embedding of an element kind into `reflect.Kind`. -/
def ElemKind.toKind : ElemKind → Kind
  | .Array => .Array
  | .Chan => .Chan
  | .Map => .Map
  | .Ptr => .Ptr
  | .Slice => .Slice

/-- The method `reflect.Type.Kind`. -/
def GoType.Kind : GoType → Kind
  | .base _ _ k => k.toKind
  | .over _ _ k _ => k.toKind

/-- The method `reflect.Type.Name`. -/
def GoType.Name : GoType → String
  | .base _ n _ => n
  | .over _ n _ _ => n

/-- The method `reflect.Type.Elem`; `none` is the panic of `Elem` on a type
without element type. -/
def GoType.Elem : GoType → Option GoType
  | .base _ _ _ => none
  | .over _ _ _ e => some e

/-- Modelled from the spec: the term data type of the external engine, with
the variants {Variable, Atom, Integer, Float, String, Compound(functor,
ordered sequence of Term), Error}, and the native handle of the `native`
package (`*Native`), a carrier of a host value.  A String is not a
constructor of its own: the engine keeps it as a Compound, the list of its
character codes (see `Term.String`).  A native handle records the tag its
`Type()` reports and the host type of the value it carries, the two things
`methods.go` asks of it. -/
inductive Term where
  | Variable (id : Nat)
  | Atom (name : String)
  | Integer (val : Int)
  | Float (val : Int)
  | Compound (functor : String) (args : List Term)
  | Error (msg : String)
  | Native (tag : TermType) (gType : GoType)

/-- Modelled from the spec: the list of character codes that stands for a
text: a Compound `'.'(code, rest)` for each character, closed by the Atom
`[]`. -/
def Term.codeList : List Char → Term
  | [] => Term.Atom "[]"
  | c :: cs => Term.Compound "." [Term.Integer c.toNat, Term.codeList cs]

/-- Modelled from the spec: a String term, the variant String of the term
data type, which the engine keeps as the list of the character codes of its
text (the terms `term.IsString` accepts). -/
def Term.String (s : String) : Term :=
  Term.codeList s.toList

/-- The method `term.Term.Type`. -/
def Term.Type : Term → TermType
  | .Variable _ => .VariableType
  | .Atom _ => .AtomType
  | .Integer _ => .IntegerType
  | .Float _ => .FloatType
  | .Compound _ _ => .CompoundType
  | .Error _ => .ErrorType
  | .Native tag _ => tag

/-- Modelled from the spec: `term.IsVariable`, the test that a term is a
Variable, decided on its type tag. -/
def IsVariable (t : Term) : Bool :=
  decide (t.Type = TermType.VariableType)

/-- Modelled from the spec: `IsNative`, the test that a term is a native
handle wrapping a host value. -/
def IsNative : Term → Bool
  | .Native _ _ => true
  | _ => false

mutual
/-- Whether a Variable occurs anywhere in a term. -/
def Term.hasVariable : Term → Bool
  | .Variable _ => true
  | .Compound _ args => Term.hasVariableList args
  | _ => false
/-- Whether a Variable occurs anywhere in a list of terms. -/
def Term.hasVariableList : List Term → Bool
  | [] => false
  | t :: ts => Term.hasVariable t || Term.hasVariableList ts
end

mutual
/-- The terms built from Variable, Atom, Integer, Float, Error and Compound
only (a String term is one of them): no native handle at any depth. -/
def Term.basic : Term → Bool
  | .Native _ _ => false
  | .Compound _ args => Term.basicList args
  | _ => true
/-- Every term of the list is `Term.basic`. -/
def Term.basicList : List Term → Bool
  | [] => true
  | t :: ts => Term.basic t && Term.basicList ts
end

/-! ## Arguments -/

/-- The collaborators of `methods.go` whose sources are elsewhere: the
decoder, the encoder, the watchers, `reflect`'s assignability and `gpName`.
`Val` is a host value (`reflect.Value`), `W` a `*Watcher`, `Host` the host
memory a wrapped method can change. -/
structure Runtime (Val W Host : Type) where
  /-- Whether `Decoder.DecodeGround(t, p)` returns no error for `p` a fresh
  `reflect.New(gType)`. -/
  DecodeGround : GoType → Term → Bool
  /-- The call `Decoder.Decode(t, dst)` for a destination of the given static
  type, whose element was allocated beforehand or not: `none` is an error,
  otherwise the decoded value and the watchers. -/
  Decode : GoType → Bool → Term → Option (Val × List W)
  /-- The call `Encoder.Encode`. -/
  Encode : Val → Term
  /-- The call `reflect.Type.AssignableTo`. -/
  AssignableTo : GoType → GoType → Bool
  /-- The identity of the field `Watcher.Variable`. -/
  Variable : W → Nat
  /-- The result of `Watcher.HasChanged` in a state of the host. -/
  HasChanged : Host → W → Bool
  /-- The result of `Watcher.Value` in a state of the host. -/
  Value : Host → W → Val
  /-- The write `field.Set(v)` into the field at an index path of a value. -/
  SetField : Host → Val → List Nat → Val → Host
  /-- The name sanitizer `gpName`. -/
  gpName : String → String

/-- The struct `typedArg`: `pType` is the optional term-type constraint,
`gType` the optional host-type constraint. -/
structure typedArg where
  pType : Option TermType
  gType : Option GoType

/-- The method `typedArg.isValid`.  The test `IsNative(t)` and the read of
`t.(*Native).val` are the match on the native handle. -/
def typedArg.isValid {Val W Host : Type} (R : Runtime Val W Host)
    (ta : typedArg) (t : Term) : Bool :=
  if (match ta.pType with
      | some p => decide (p ≠ t.Type)
      | none => false) then false
  else
    match ta.gType with
    | none => true
    | some g =>
      match t with
      | .Native _ gt => if !(R.AssignableTo gt g) then false else true
      | _ => if !(R.DecodeGround g t) then false else true

/-- The struct `anyArg`. -/
structure anyArg where
  typedArg : typedArg

/-- The constructor `newAnyArg`. -/
def newAnyArg (pType : Option TermType) (gType : Option GoType) : anyArg :=
  ⟨⟨pType, gType⟩⟩

/-- The method `anyArg.IsValid`. -/
def anyArg.IsValid {Val W Host : Type} (R : Runtime Val W Host)
    (ga : anyArg) (t : Term) : Bool :=
  if IsVariable t then true
  else ga.typedArg.isValid R t

/-- The struct `varArg`. -/
structure varArg where
  deriving Repr

/-- The method `varArg.IsValid`. -/
def varArg.IsValid (_va : varArg) (t : Term) : Bool :=
  IsVariable t

/-- The struct `groundArg`. -/
structure groundArg where
  typedArg : typedArg

/-- The constructor `newGroundArg`. -/
def newGroundArg (pType : Option TermType) (gType : Option GoType) : groundArg :=
  ⟨⟨pType, gType⟩⟩

mutual
/-- The method `groundArg.isGround`; `none` is a panic.  The switch handles
the six type tags there are, so its last statement, the panic "Unexpected
term type", is not reached; what is left is the failed assertion
`t.(*term.Compound)` on a native handle that reports `CompoundType`. -/
def groundArg.isGround : Term → Option Bool
  | .Compound _ args => groundArg.isGroundLoop args
  | .Variable _ => some false
  | .Atom _ => some true
  | .Integer _ => some true
  | .Float _ => some true
  | .Error _ => some true
  | .Native tag _ =>
    match tag with
    | .VariableType => some false
    | .AtomType => some true
    | .IntegerType => some true
    | .FloatType => some true
    | .ErrorType => some true
    | .CompoundType => none
/-- The loop `for _, arg := range x.Arguments()` of `groundArg.isGround`,
which returns false at the first argument that is not ground. -/
def groundArg.isGroundLoop : List Term → Option Bool
  | [] => some true
  | arg :: rest =>
    match groundArg.isGround arg with
    | none => none
    | some false => some false
    | some true => groundArg.isGroundLoop rest
end

/-- The method `groundArg.IsValid`; `none` is a panic of `isGround`. -/
def groundArg.IsValid {Val W Host : Type} (R : Runtime Val W Host)
    (ga : groundArg) (t : Term) : Option Bool :=
  match groundArg.isGround t with
  | none => none
  | some false => some false
  | some true => some (ga.typedArg.isValid R t)

/-- The interface `Argument`, with its three implementations. -/
inductive Argument where
  | any (a : anyArg)
  | var (a : varArg)
  | ground (a : groundArg)

/-- The interface method `Argument.IsValid`; `none` is a panic. -/
def Argument.IsValid {Val W Host : Type} (R : Runtime Val W Host) :
    Argument → Term → Option Bool
  | .any a, t => some (a.IsValid R t)
  | .var a, t => some (a.IsValid t)
  | .ground a, t => a.IsValid R t

/-! ## Signatures -/

/-- The type `Signature`, a slice of Arguments. -/
abbrev Signature := List Argument

/-- The loop `for i, a := range s` of `Signature.IsValid`, from index `i`
on; `none` is a panic (of an Argument, or of `args[i]` out of range). -/
def Signature.isValidLoop {Val W Host : Type} (R : Runtime Val W Host)
    (args : List Term) : List Argument → Nat → Option Bool
  | [], _ => some true
  | a :: rest, i =>
    match args.get? i with
    | none => none
    | some t =>
      match a.IsValid R t with
      | none => none
      | some false => some false
      | some true => Signature.isValidLoop R args rest (i + 1)

/-- The method `Signature.IsValid`; `none` is a panic. -/
def Signature.IsValid {Val W Host : Type} (R : Runtime Val W Host)
    (s : Signature) (args : List Term) : Option Bool :=
  if s.length ≠ args.length then some false
  else Signature.isValidLoop R args s 0

/-! ## Method and field descriptors (`reflect`) -/

/-- The type of a method as `reflect` reports it: the types of its input
parameters (receiver first) and of its return values. -/
structure MethodType where
  ins : List GoType
  outs : List GoType

/-- The method `reflect.Type.NumIn`. -/
def MethodType.NumIn (mt : MethodType) : Nat := mt.ins.length

/-- The method `reflect.Type.NumOut`. -/
def MethodType.NumOut (mt : MethodType) : Nat := mt.outs.length

/-- The method `reflect.Type.In`; `none` is its panic on an index that is
out of range. -/
def MethodType.In (mt : MethodType) (i : Nat) : Option GoType := mt.ins.get? i

/-- The struct `reflect.Method` (its field `Type` is `Typ` here): `Func` is
the wrapped method, a function of the argument values and the host memory
that yields the return values and the host memory after the call. -/
structure Method (Val Host : Type) where
  Name : String
  Typ : MethodType
  Func : List Val → Host → List Val × Host

/-- The struct `reflect.StructField` (its field `Type` is `Typ` here). -/
structure StructField where
  Name : String
  Typ : GoType
  Index : List Nat

/-- The function `canElement`. -/
def canElement (t : GoType) : Bool :=
  match t.Kind with
  | .Array => true
  | .Chan => true
  | .Map => true
  | .Ptr => true
  | .Slice => true
  | _ => false

/-- The loops `for i := 0; i < n; i++ { args = append(args,
newAnyArg(nil, m.Type.In(i))) }` of `NewSignature`, with `n` iterations left
from index `i`; `none` is the panic of `In`. -/
def NewSignature.loop (mt : MethodType) : Nat → Nat → List Argument → Option (List Argument)
  | 0, _, args => some args
  | n + 1, i, args =>
    match mt.In i with
    | none => none
    | some t => NewSignature.loop mt n (i + 1) (args ++ [Argument.any (newAnyArg none (some t))])

/-- The function `NewSignature`: the first loop runs over the `NumIn` inputs,
the second over the `NumOut` outputs, and both read `m.Type.In(i)`; `none` is
a panic. -/
def NewSignature {Val Host : Type} (m : Method Val Host) : Option Signature :=
  match NewSignature.loop m.Typ m.Typ.NumIn 0 [] with
  | none => none
  | some args => NewSignature.loop m.Typ m.Typ.NumOut 0 args

/-! ## Dispatch -/

/-- The panics a dispatcher can raise. -/
inductive Fault where
  /-- The panic "Unexpected term type" of `groundArg.isGround`. -/
  | unexpectedTerm
  /-- An index out of range, as in `args[i]`. -/
  | indexOutOfRange
  /-- Slice bounds out of range, as in `args[len(args)-len(res):]`. -/
  | sliceBounds
  /-- The panic of `reflect.Value.Set` on a value that is not assignable. -/
  | setNotAssignable
  /-- The panic of `reflect.Value.Field` on a Value that is not a struct. -/
  | valueField
  /-- The panic "Not implemented: cannot unify partially instantiated
  structs". -/
  | notImplemented
  /-- The use of a descriptor (`Method`, `Type`, `Field`) that is not set. -/
  | nilDescriptor
  deriving DecidableEq, Repr

/-- The result of a dispatcher: `golog.ForeignFail()`, `golog.ForeignUnify`
of a list of terms (read in pairs), or a panic. -/
inductive Outcome where
  | ForeignFail
  | ForeignUnify (ts : List Term)
  | panics (f : Fault)

/-- What a dispatcher does to its collaborators, in order: a call of
`Decoder.Decode` for an argument position, a call of the wrapped method. -/
inductive Event where
  | decode (pos : Nat)
  | invoke
  deriving DecidableEq, Repr

/-- The state a dispatcher runs in: the host memory and the record of the
decoder calls and method invocations made so far. -/
structure World (Host : Type) where
  host : Host
  log : List Event

/-- The number of invocations of a wrapped method recorded in a log. -/
def invocations (log : List Event) : Nat := log.count Event.invoke

/-- The result of `Signature.Args`: the decoded values and the watchers, a
decoding error, or a panic. -/
inductive ArgsResult (Val W : Type) where
  | ok (result : List Val) (watchers : List W)
  | err
  | panics (f : Fault)

/-- The loop of `Signature.Args` over the input types left, from position `i`
on, with the values, watchers and decoder calls gathered so far.
`val.Elem().Set(reflect.New(t.Elem()))` stores a pointer to the element type:
`reflect` panics unless the kind of `t` is `Ptr`. -/
def Signature.argsLoop {Val W Host : Type} (R : Runtime Val W Host) (args : List Term) :
    List GoType → Nat → List Val → List W → List Event → ArgsResult Val W × List Event
  | [], _, result, watchers, log => (ArgsResult.ok result watchers, log)
  | t :: rest, i, result, watchers, log =>
    if canElement t && decide (t.Kind ≠ Kind.Ptr) then
      (ArgsResult.panics Fault.setNotAssignable, log)
    else
      match args.get? i with
      | none => (ArgsResult.panics Fault.indexOutOfRange, log)
      | some a =>
        match R.Decode t (canElement t) a with
        | none => (ArgsResult.err, log ++ [Event.decode i])
        | some (v, ws) =>
          Signature.argsLoop R args rest (i + 1) (result ++ [v]) (watchers ++ ws)
            (log ++ [Event.decode i])

/-- The method `Signature.Args`, with the decoder calls it makes. -/
def Signature.Args {Val W Host : Type} (R : Runtime Val W Host) (_s : Signature)
    (method : Method Val Host) (args : List Term) : ArgsResult Val W × List Event :=
  Signature.argsLoop R args method.Typ.ins 0 [] [] []

/-- Modelled from the spec: `Watchers.Variables`, the distinct Variables
among the watchers. -/
def Watchers.Variables {Val W Host : Type} (R : Runtime Val W Host) (ws : List W) : List Nat :=
  (ws.map R.Variable).dedup

/-- The struct `ForeignCall` (its field `Type` is `Typ` here); a descriptor
that is not set is `none`. -/
structure ForeignCall (Val Host : Type) where
  Signature : Signature
  Name : String
  Arity : Nat
  Method : Option (Method Val Host)
  Typ : Option GoType
  Field : Option StructField

/-- The method `ForeignCall.String`: `fmt.Sprintf("%s/%d", fc.Name,
fc.Arity)`. -/
def ForeignCall.String {Val Host : Type} (fc : ForeignCall Val Host) : String :=
  fc.Name ++ "/" ++ toString fc.Arity

/-- The loop `for i, r := range res` of `ForeignCall.Predicate`, which
appends `ures[i]` and the encoding of `r`; `none` is `ures[i]` out of
range. -/
def ForeignCall.encodeLoop {Val W Host : Type} (R : Runtime Val W Host) (ures : List Term) :
    List Val → Nat → List Term → Option (List Term)
  | [], _, unified => some unified
  | r :: rest, i, unified =>
    match ures.get? i with
    | none => none
    | some u => ForeignCall.encodeLoop R ures rest (i + 1) (unified ++ [u, R.Encode r])

/-- The loop `for _, w := range watchers` of `ForeignCall.Predicate` and
`ForeignCall.Accessor`, which appends the Variable and the encoded value of
every watcher that has changed. -/
def ForeignCall.changedLoop {Val W Host : Type} (R : Runtime Val W Host) (host : Host) :
    List W → List Term → List Term
  | [], unified => unified
  | w :: rest, unified =>
    if R.HasChanged host w then
      ForeignCall.changedLoop R host rest
        (unified ++ [Term.Variable (R.Variable w), R.Encode (R.Value host w)])
    else ForeignCall.changedLoop R host rest unified

/-- The method `ForeignCall.Predicate`, from a state of the world to the
result and the state after it. -/
def ForeignCall.Predicate {Val W Host : Type} (R : Runtime Val W Host)
    (fc : ForeignCall Val Host) (args : List Term) (w : World Host) : Outcome × World Host :=
  match Signature.IsValid R fc.Signature args with
  | none => (Outcome.panics Fault.unexpectedTerm, w)
  | some false => (Outcome.ForeignFail, w)
  | some true =>
    match fc.Method with
    | none => (Outcome.panics Fault.nilDescriptor, w)
    | some method =>
      match Signature.Args R fc.Signature method args with
      | (ArgsResult.panics f, evs) => (Outcome.panics f, ⟨w.host, w.log ++ evs⟩)
      | (ArgsResult.err, evs) => (Outcome.ForeignFail, ⟨w.host, w.log ++ evs⟩)
      | (ArgsResult.ok fargs watchers, evs) =>
        match method.Func fargs w.host with
        | (res, host) =>
          if args.length < res.length then
            (Outcome.panics Fault.sliceBounds, ⟨host, w.log ++ evs ++ [Event.invoke]⟩)
          else
            match ForeignCall.encodeLoop R (args.drop (args.length - res.length)) res 0 [] with
            | none => (Outcome.panics Fault.indexOutOfRange, ⟨host, w.log ++ evs ++ [Event.invoke]⟩)
            | some unified =>
              if watchers.length > (Watchers.Variables R watchers).length then
                (Outcome.panics Fault.notImplemented, ⟨host, w.log ++ evs ++ [Event.invoke]⟩)
              else
                (Outcome.ForeignUnify (ForeignCall.changedLoop R host watchers unified),
                  ⟨host, w.log ++ evs ++ [Event.invoke]⟩)

/-- The method `reflect.Value.FieldByIndex` on a Value of the given kind:
`reflect.Value.Field` panics (`none`) unless that kind is `Struct`. -/
def FieldByIndex (k : Kind) (index : List Nat) : Option (List Nat) :=
  if k = Kind.Struct then some index else none

/-- The statements of `ForeignCall.Accessor` that follow
`lval.FieldByIndex(fc.Field.Index)`, for the receiver value `val`, its
watchers and the field found at `index`: the field-value term is decoded
into a fresh value, the field is set to it, and the watchers are checked
and reported as in `ForeignCall.Predicate`. -/
def ForeignCall.accessorRest {Val W Host : Type} (R : Runtime Val W Host)
    (fc : ForeignCall Val Host) (args : List Term) (w : World Host)
    (val : Val) (watchers : List W) (index : List Nat) : Outcome × World Host :=
  match fc.Field with
  | none => (Outcome.panics Fault.nilDescriptor, ⟨w.host, w.log ++ [Event.decode 0]⟩)
  | some field =>
    match args.get? 1 with
    | none => (Outcome.panics Fault.indexOutOfRange, ⟨w.host, w.log ++ [Event.decode 0]⟩)
    | some a1 =>
      match R.Decode field.Typ false a1 with
      | none => (Outcome.ForeignFail, ⟨w.host, w.log ++ [Event.decode 0, Event.decode 1]⟩)
      | some (rval, rwatchers) =>
        if (watchers ++ rwatchers).length >
            (Watchers.Variables R (watchers ++ rwatchers)).length then
          (Outcome.panics Fault.notImplemented,
            ⟨R.SetField w.host val index rval, w.log ++ [Event.decode 0, Event.decode 1]⟩)
        else
          (Outcome.ForeignUnify
              (ForeignCall.changedLoop R (R.SetField w.host val index rval)
                (watchers ++ rwatchers) []),
            ⟨R.SetField w.host val index rval, w.log ++ [Event.decode 0, Event.decode 1]⟩)

/-- The method `ForeignCall.Accessor`.  `val` is the pointer that
`reflect.New(fc.Type)` returns, so `lval := reflect.ValueOf(val)` is a Value
of kind `Ptr`, and it is on this Value that `FieldByIndex` is called. -/
def ForeignCall.Accessor {Val W Host : Type} (R : Runtime Val W Host)
    (fc : ForeignCall Val Host) (args : List Term) (w : World Host) : Outcome × World Host :=
  match Signature.IsValid R fc.Signature args with
  | none => (Outcome.panics Fault.unexpectedTerm, w)
  | some false => (Outcome.ForeignFail, w)
  | some true =>
    match fc.Typ with
    | none => (Outcome.panics Fault.nilDescriptor, w)
    | some ty =>
      match args.get? 0 with
      | none => (Outcome.panics Fault.indexOutOfRange, w)
      | some a0 =>
        match R.Decode ty false a0 with
        | none => (Outcome.ForeignFail, ⟨w.host, w.log ++ [Event.decode 0]⟩)
        | some (val, watchers) =>
          match FieldByIndex Kind.Ptr
            (match fc.Field with
              | some f => f.Index
              | none => []) with
          | none => (Outcome.panics Fault.valueField, ⟨w.host, w.log ++ [Event.decode 0]⟩)
          | some index => ForeignCall.accessorRest R fc args w val watchers index

/-! ## Generation -/

/-- The function `GenerateAccessor`; the dispatcher stands for its bound
method `fc.Accessor`. -/
def GenerateAccessor {Val W Host : Type} (R : Runtime Val W Host) (name : String)
    (t : GoType) (f : StructField) : String × ForeignCall Val Host :=
  let fc : ForeignCall Val Host :=
    ForeignCall.mk
      [Argument.any (newAnyArg none (some t)), Argument.any (newAnyArg none (some f.Typ))]
      (R.gpName (name ++ "_" ++ f.Name)) 2 none (some t) (some f)
  (fc.String, fc)

/-- The function `GenerateMethod`; the dispatcher stands for its bound method
`fc.Predicate`, and `none` is the panic of `NewSignature`. -/
def GenerateMethod {Val W Host : Type} (R : Runtime Val W Host) (name : String)
    (m : Method Val Host) : Option (String × ForeignCall Val Host) :=
  match NewSignature m with
  | none => none
  | some sig =>
    let fc : ForeignCall Val Host :=
      ForeignCall.mk sig (R.gpName (name ++ "_" ++ m.Name))
        (m.Typ.NumIn + m.Typ.NumOut) (some m) none none
    some (fc.String, fc)

/-- The statements `name := t.Name(); if name == "" && canElement(t) { name =
t.Elem().Name() }` of `GenerateMethods` and `GenerateAccessors`; `none` is
the panic of `Elem`. -/
def nameRoot (t : GoType) : Option String :=
  if t.Name = "" ∧ canElement t = true then
    match t.Elem with
    | some e => some e.Name
    | none => none
  else some t.Name

/-- The assignment `result[k] = v` on a Go map, kept as the list of its
entries: the entry of an existing key is replaced. -/
def mapSet {α : Type} (result : List (String × α)) (k : String) (v : α) : List (String × α) :=
  if result.any (fun p => p.1 == k) then
    result.map (fun p => if p.1 == k then (k, v) else p)
  else result ++ [(k, v)]

/-- The loop of `GenerateMethods` over the methods that `t.Method(i)` lists;
`none` is a panic. -/
def GenerateMethods.loop {Val W Host : Type} (R : Runtime Val W Host) (t : GoType) :
    List (Method Val Host) → List (String × ForeignCall Val Host) →
    Option (List (String × ForeignCall Val Host))
  | [], result => some result
  | m :: rest, result =>
    match nameRoot t with
    | none => none
    | some name =>
      match GenerateMethod R name m with
      | none => none
      | some (k, v) => GenerateMethods.loop R t rest (mapSet result k v)

/-- The function `GenerateMethods`, for the type `t` of `obj` and the methods
of its method set, in the order of `t.Method(i)`. -/
def GenerateMethods {Val W Host : Type} (R : Runtime Val W Host) (t : GoType)
    (methods : List (Method Val Host)) : Option (List (String × ForeignCall Val Host)) :=
  GenerateMethods.loop R t methods []

/-- The loop of `GenerateAccessors` over the fields that `t.Field(i)` lists;
`none` is a panic. -/
def GenerateAccessors.loop {Val W Host : Type} (R : Runtime Val W Host) (t : GoType) :
    List StructField → List (String × ForeignCall Val Host) →
    Option (List (String × ForeignCall Val Host))
  | [], result => some result
  | f :: rest, result =>
    match nameRoot t with
    | none => none
    | some name =>
      GenerateAccessors.loop R t rest
        (mapSet result (GenerateAccessor R name t f).1 (GenerateAccessor R name t f).2)

/-- The function `GenerateAccessors`, for the type `t` of `obj` and its
fields, in the order of `t.Field(i)`.  The loop test `i < t.NumField()`
panics (`none`) when the kind of `t` is not `Struct`. -/
def GenerateAccessors {Val W Host : Type} (R : Runtime Val W Host) (t : GoType)
    (fields : List StructField) : Option (List (String × ForeignCall Val Host)) :=
  if t.Kind ≠ Kind.Struct then none
  else GenerateAccessors.loop R t fields []

/-! ## Rendering

Go strings are lists of characters here.  `typeString` is the method
`reflect.Type.String`. -/

/-- The call `strings.Replace(s, old, new, -1)` for an `old` of one
character. -/
def Replace (s : List Char) (old : Char) (new : List Char) : List Char :=
  s.flatMap (fun c => if c = old then new else [c])

/-- The method `typedArg.String`. -/
def typedArg.String (typeString : GoType → List Char) (ta : typedArg) : List Char :=
  (match ta.pType with
    | some TermType.VariableType => ['-']
    | some TermType.FloatType => ['+']
    | some TermType.IntegerType => ['+']
    | some TermType.AtomType => ['+']
    | _ => ['?']) ++
  (['%', 's'] ++
    (match ta.gType with
      | some g => ['_'] ++ Replace (Replace (typeString g) '.' ['_']) '*' ['p', 't', 'r', '_']
      | none => []))

/-- The method `String` of `anyArg`, promoted from the embedded `*typedArg`. -/
def anyArg.String (typeString : GoType → List Char) (ga : anyArg) : List Char :=
  ga.typedArg.String typeString

/-- The method `varArg.String`. -/
def varArg.String (_va : varArg) : List Char := ['-', '%', 's']

/-- The method `groundArg.String`: `"+" + ga.typedArg.String()[1:]`. -/
def groundArg.String (typeString : GoType → List Char) (ga : groundArg) : List Char :=
  ['+'] ++ (ga.typedArg.String typeString).drop 1

/-- The interface method `Argument.String`. -/
def Argument.String (typeString : GoType → List Char) : Argument → List Char
  | .any a => a.String typeString
  | .var a => a.String
  | .ground a => a.String typeString

/-- The host-type constraint of an Argument, if it has one. -/
def Argument.gType : Argument → Option GoType
  | .any a => a.typedArg.gType
  | .var _ => none
  | .ground a => a.typedArg.gType

/-- The text that follows the first verb of a format, when it holds no
further verb. -/
def Sprintf.literal (rest : List Char) : Option (List Char) :=
  if '%' ∈ rest then none else some rest

/-- The call `fmt.Sprintf(format, arg)` with one string operand, on the
formats that `fmt` renders without a verb other than one `%s`: the text
before the verb, the operand, the text after the verb; a format without verb
is followed by the notice of the unused operand.  `none` stands for a format
with another `%`, which this embedding of `fmt` does not render. -/
def Sprintf : List Char → List Char → Option (List Char)
  | [], arg =>
    some (['%', '!', '(', 'E', 'X', 'T', 'R', 'A', ' ', 's', 't', 'r', 'i', 'n', 'g', '='] ++
      arg ++ [')'])
  | '%' :: 's' :: rest, arg =>
    match Sprintf.literal rest with
    | none => none
    | some text => some (arg ++ text)
  | '%' :: _, _ => none
  | c :: rest, arg =>
    match Sprintf rest arg with
    | none => none
    | some text => some (c :: text)

/-- The call `strings.Join(chunks, sep)`. -/
def Join (chunks : List (List Char)) (sep : List Char) : List Char :=
  List.intercalate sep chunks

/-- The loop of `Signature.String`: `name` is the rune that starts at `'A'`
and is incremented at each Argument; `none` is a format outside the
embedding of `fmt.Sprintf`. -/
def Signature.stringLoop (typeString : GoType → List Char) :
    List Argument → Nat → List (List Char) → Option (List (List Char))
  | [], _, chunks => some chunks
  | sc :: rest, name, chunks =>
    match Sprintf (sc.String typeString) [Char.ofNat name] with
    | none => none
    | some chunk => Signature.stringLoop typeString rest (name + 1) (chunks ++ [chunk])

/-- The method `Signature.String`. -/
def Signature.String (typeString : GoType → List Char) (s : Signature) : Option (List Char) :=
  match Signature.stringLoop typeString s 65 [] with
  | none => none
  | some chunks => some (Join chunks [' ', '-', '>', ' '])

/-- The text of a type in which every `.` is replaced by `_` and every `*` by
`ptr_`, as the specification words it. -/
def sanitized (s : List Char) : List Char :=
  s.flatMap (fun c => if c = '.' then ['_'] else if c = '*' then ['p', 't', 'r', '_'] else [c])

/-- The host `R` with other answers of `Watcher.HasChanged` and
`Watcher.Value`, everything else the same. -/
def Runtime.withWatchers {Val W Host : Type} (R : Runtime Val W Host)
    (hasChanged : Host → W → Bool) (value : Host → W → Val) : Runtime Val W Host :=
  Runtime.mk R.DecodeGround R.Decode R.Encode R.AssignableTo R.Variable hasChanged value
    R.SetField R.gpName

/-! ## A sample host

A small host on which the dispatchers can be run: its memory is a list of
integer cells; cells 0 and 1 are the fields `A` and `B` of the receiver
(`InOnly` of the tests, with `B` kept as a number), cell 2 the flag `called`.
-/

namespace Sample

/-- A watcher of the sample host: its Variable, the cell it watches and the
value of the cell when the watcher was made. -/
structure Watcher where
  var : Nat
  slot : Nat
  baseline : Int
  deriving DecidableEq, Repr

/-- The watchers of the Variables among the arguments of a compound, one per
Variable, on the cell of its position. -/
def watch : List Term → Nat → List Watcher
  | [], _ => []
  | Term.Variable id :: rest, k => Watcher.mk id k 0 :: watch rest (k + 1)
  | _ :: rest, k => watch rest (k + 1)

/-- The decoder of the sample host: numbers, atoms and compounds decode
(a Variable leaves a watcher behind), every other term is an error. -/
def decodeTerm : Term → Option (Int × List Watcher)
  | Term.Integer n => some (n, [])
  | Term.Atom _ => some (0, [])
  | Term.Variable id => some (0, [Watcher.mk id 3 0])
  | Term.Compound _ args => some (0, watch args 0)
  | _ => none

/-- The ground decoder of the sample host, which refuses Error terms only. -/
def decodeGround : Term → Bool
  | Term.Error _ => false
  | _ => true

/-- The sample host. -/
def runtime : Runtime Int Watcher (List Int) :=
  Runtime.mk (fun _ t => decodeGround t) (fun _ _ t => decodeTerm t) (fun v => Term.Integer v)
    (fun _ _ => true) (fun w => w.var) (fun h w => decide (h.getD w.slot 0 ≠ w.baseline))
    (fun h w => h.getD w.slot 0) (fun h _ index v => h.set (index.headD 0) v) (fun s => s)

/-- The host type `int`. -/
def intT : GoType := GoType.base "" "int" BaseKind.Int

/-- The host type `string`. -/
def stringT : GoType := GoType.base "" "string" BaseKind.String

/-- The host type `InOnly`, a struct. -/
def inOnlyT : GoType := GoType.base "native" "InOnly" BaseKind.Struct

/-- The host type `*InOnly`. -/
def ptrInOnlyT : GoType := GoType.over "" "" ElemKind.Ptr inOnlyT

/-- The host type `NoInOut`, a struct. -/
def noInOutT : GoType := GoType.base "native" "NoInOut" BaseKind.Struct

/-- The host type `*NoInOut`. -/
def ptrNoInOutT : GoType := GoType.over "" "" ElemKind.Ptr noInOutT

/-- A named slice type, `type IntList []int`. -/
def intListT : GoType := GoType.over "native" "IntList" ElemKind.Slice intT

/-- The method `(*NoInOut).Test`, which sets the flag `called`. -/
def noInOutTest : Method Int (List Int) :=
  Method.mk "Test" (MethodType.mk [ptrNoInOutT] []) (fun _ h => ([], h.set 2 1))

/-- The method `(*InOnly).Test1`, which stores its argument in field `A`. -/
def inOnlyTest1 : Method Int (List Int) :=
  Method.mk "Test1" (MethodType.mk [ptrInOnlyT, intT] [])
    (fun fargs h => ([], h.set 0 (fargs.getD 1 0)))

/-- The method `(*InOnly).Test2`, which stores its arguments in the fields
`A` and `B`. -/
def inOnlyTest2 : Method Int (List Int) :=
  Method.mk "Test2" (MethodType.mk [ptrInOnlyT, intT, intT] [])
    (fun fargs h => ([], (h.set 0 (fargs.getD 1 0)).set 1 (fargs.getD 2 0)))

/-- A method `func (io *InOnly) Swap(a int) int`, which stores its argument
in field `A` and returns the value that was there. -/
def inOnlySwap : Method Int (List Int) :=
  Method.mk "Swap" (MethodType.mk [ptrInOnlyT, intT] [intT])
    (fun fargs h => ([h.getD 0 0], h.set 0 (fargs.getD 1 0)))

/-- A method `func (io *InOnly) Both() (int, int)`, with more return values
than inputs. -/
def inOnlyBoth : Method Int (List Int) :=
  Method.mk "Both" (MethodType.mk [ptrInOnlyT] [intT, intT])
    (fun _ h => ([h.getD 0 0, h.getD 1 0], h))

/-- A method `func (l IntList) Test()` on the named slice type, which sets
the flag `called`. -/
def intListTest : Method Int (List Int) :=
  Method.mk "Test" (MethodType.mk [intListT] []) (fun _ h => ([], h.set 2 1))

/-- The field `A` of `InOnly`. -/
def fieldA : StructField := StructField.mk "A" intT [0]

/-- The state of the sample host before any call. -/
def world0 : World (List Int) := World.mk [0, 0, 0] []

/-- The dispatcher of a method of the sample host, with the signature that
`NewSignature` gives when it returns one. -/
def dispatcher (name : String) (m : Method Int (List Int)) : ForeignCall Int (List Int) :=
  ForeignCall.mk ((NewSignature m).getD []) (runtime.gpName (name ++ "_" ++ m.Name))
    (m.Typ.NumIn + m.Typ.NumOut) (some m) none none

/-- The rendering `reflect.Type.String` of the types of the sample host. -/
def typeString : GoType → List Char
  | GoType.base pkg name _ => if pkg = "" then name.toList else pkg.toList ++ ['.'] ++ name.toList
  | GoType.over pkg name kind elem =>
    if name = "" then
      (match kind with
        | ElemKind.Ptr => ['*']
        | ElemKind.Slice => ['[', ']']
        | ElemKind.Array => ['[', '3', ']']
        | ElemKind.Chan => ['c', 'h', 'a', 'n', ' ']
        | ElemKind.Map => ['m', 'a', 'p', '[', 'i', 'n', 't', ']']) ++ typeString elem
    else if pkg = "" then name.toList else pkg.toList ++ ['.'] ++ name.toList

/-- The field `B` of `InOnly`. -/
def fieldB : StructField := StructField.mk "B" stringT [1]

end Sample

end Native

/-! ## Theorems -/

namespace Native

variable {Val W Host : Type}

/-! ### Validation -/

/-- C1: `Signature.IsValid` returns false on every term list whose length is
not the length of the signature, whatever the Arguments of the signature are. -/
theorem Signature.IsValid_wrong_length (R : Runtime Val W Host) (s : Signature)
    (args : List Term) (h : args.length ≠ s.length) :
    Signature.IsValid R s args = some false := by
  unfold Signature.IsValid
  rw [if_pos (fun e => h e.symm)]

/-- Witness of C1: a signature of one unconstrained BoundAny argument, which
accepts each of the two terms on its own, refuses the list of both. -/
theorem Signature.IsValid_wrong_length_witness :
    [Term.Integer 1, Term.Integer 2].length ≠ [Argument.any (newAnyArg none none)].length ∧
    Signature.IsValid Sample.runtime [Argument.any (newAnyArg none none)]
      [Term.Integer 1, Term.Integer 2] = some false :=
  ⟨by decide, Signature.IsValid_wrong_length Sample.runtime
    [Argument.any (newAnyArg none none)] [Term.Integer 1, Term.Integer 2] (by decide)⟩

mutual
/-- On a term built from Variable, Atom, Integer, Float, Error and Compound,
`isGround` returns, and its result is that no Variable occurs. -/
theorem groundArg.isGround_basic : ∀ t : Term, t.basic = true →
    groundArg.isGround t = some (!t.hasVariable)
  | .Variable _, _ => rfl
  | .Atom _, _ => rfl
  | .Integer _, _ => rfl
  | .Float _, _ => rfl
  | .Error _, _ => rfl
  | .Native _ _, h => by simp [Term.basic] at h
  | .Compound _ args, h => by
    have h2 : Term.basicList args = true := by simpa [Term.basic] using h
    simpa [groundArg.isGround, Term.hasVariable] using groundArg.isGroundLoop_basic args h2
/-- On a list of such terms the loop of `isGround` returns, and its result is
that no Variable occurs in the list. -/
theorem groundArg.isGroundLoop_basic : ∀ ts : List Term, Term.basicList ts = true →
    groundArg.isGroundLoop ts = some (!Term.hasVariableList ts)
  | [], _ => rfl
  | t :: ts, h => by
    have h2 : t.basic = true ∧ Term.basicList ts = true := by
      simpa [Term.basicList] using h
    have e1 := groundArg.isGround_basic t h2.1
    have e2 := groundArg.isGroundLoop_basic ts h2.2
    cases hv : t.hasVariable <;> simp [groundArg.isGroundLoop, Term.hasVariableList, e1, e2, hv]
end

/-- The loop of `isGround` on terms that are each ground or not: its result
is that every argument is ground. -/
theorem groundArg.isGroundLoop_all (ts : List Term) (h : Term.basicList ts = true) :
    groundArg.isGroundLoop ts = some (ts.all (fun a => groundArg.isGround a == some true)) := by
  induction ts with
  | nil => rfl
  | cons t ts ih =>
    have h2 : t.basic = true ∧ Term.basicList ts = true := by
      simpa [Term.basicList] using h
    have e1 := groundArg.isGround_basic t h2.1
    cases hv : t.hasVariable <;> simp [groundArg.isGroundLoop, e1, hv, ih h2.2]

/-- C2: on every term built from Variable, Atom, Integer, Float, Error and
Compound, at any depth, `groundArg.isGround` returns true if and only if no
Variable occurs in the term: a Variable is never ground, an Atom, Integer,
Float or Error always is, and a Compound is ground iff each of its arguments
is. -/
theorem groundArg.isGround_iff_no_variable (t : Term) (h : t.basic = true) :
    groundArg.isGround t = some (!t.hasVariable) ∧
    (∀ id, groundArg.isGround (Term.Variable id) = some false) ∧
    (∀ a, groundArg.isGround (Term.Atom a) = some true) ∧
    (∀ n, groundArg.isGround (Term.Integer n) = some true) ∧
    (∀ x, groundArg.isGround (Term.Float x) = some true) ∧
    (∀ e, groundArg.isGround (Term.Error e) = some true) ∧
    (∀ f args, t = Term.Compound f args →
      groundArg.isGround t = some (args.all (fun a => groundArg.isGround a == some true))) := by
  refine ⟨groundArg.isGround_basic t h, fun _ => rfl, fun _ => rfl, fun _ => rfl,
    fun _ => rfl, fun _ => rfl, ?_⟩
  intro f args e
  subst e
  have h2 : Term.basicList args = true := by simpa [Term.basic] using h
  simpa [groundArg.isGround] using groundArg.isGroundLoop_all args h2

/-- Witness of C2: a compound of depth 3 with a Variable at the bottom is
not ground. -/
theorem groundArg.isGround_iff_no_variable_witness :
    (Term.Compound "f" [Term.Atom "a",
        Term.Compound "g" [Term.Integer 1, Term.Compound "h" [Term.Variable 7]]]).basic = true ∧
    groundArg.isGround (Term.Compound "f" [Term.Atom "a",
        Term.Compound "g" [Term.Integer 1, Term.Compound "h" [Term.Variable 7]]]) = some false :=
  ⟨rfl, (groundArg.isGround_iff_no_variable (Term.Compound "f" [Term.Atom "a",
        Term.Compound "g" [Term.Integer 1, Term.Compound "h" [Term.Variable 7]]]) rfl).1⟩

/-- Counterexample to C3: the BoundAny argument that `NewSignature` makes for
an `int` parameter accepts a Variable. -/
theorem anyArg.IsValid_variable_counterexample :
    ¬ (anyArg.IsValid Sample.runtime (newAnyArg none (some Sample.intT)) (Term.Variable 0)
      = false) := by
  decide

/-- C3, amended: a BoundAny argument accepts every Variable, whatever its
term-type and host-type constraints are. -/
theorem anyArg.IsValid_variable (R : Runtime Val W Host) (ga : anyArg) (id : Nat) :
    anyArg.IsValid R ga (Term.Variable id) = true := by
  simp [anyArg.IsValid, IsVariable, Term.Type]

/-! ### Dispatch -/

/-- C4: on an argument list that `Signature.IsValid` refuses, `Predicate` and
`Accessor` both return `ForeignFail` and leave the world as it was: no
argument is decoded, the method is not invoked and the host memory is not
written. -/
theorem ForeignCall.invalid_fails (R : Runtime Val W Host) (fc : ForeignCall Val Host)
    (args : List Term) (w : World Host)
    (h : Signature.IsValid R fc.Signature args = some false) :
    ForeignCall.Predicate R fc args w = (Outcome.ForeignFail, w) ∧
    ForeignCall.Accessor R fc args w = (Outcome.ForeignFail, w) := by
  constructor
  · unfold ForeignCall.Predicate
    rw [h]
  · unfold ForeignCall.Accessor
    rw [h]

/-- Witness of C4: the dispatcher of `(*InOnly).Test1`, of arity 2, called
with one argument. -/
theorem ForeignCall.invalid_fails_witness :
    Signature.IsValid Sample.runtime (Sample.dispatcher "InOnly" Sample.inOnlyTest1).Signature
      [Term.Atom "io"] = some false ∧
    ForeignCall.Predicate Sample.runtime (Sample.dispatcher "InOnly" Sample.inOnlyTest1)
      [Term.Atom "io"] Sample.world0 = (Outcome.ForeignFail, Sample.world0) ∧
    ForeignCall.Accessor Sample.runtime (Sample.dispatcher "InOnly" Sample.inOnlyTest1)
      [Term.Atom "io"] Sample.world0 = (Outcome.ForeignFail, Sample.world0) :=
  ⟨rfl, ForeignCall.invalid_fails Sample.runtime (Sample.dispatcher "InOnly" Sample.inOnlyTest1)
    [Term.Atom "io"] Sample.world0 rfl⟩

/-- The decoder calls for the positions `i`, ..., `i + n - 1`, in order. -/
theorem decode_range_succ (i n : Nat) :
    (List.range (n + 1)).map (fun j => Event.decode (i + j)) =
      Event.decode i :: (List.range n).map (fun j => Event.decode (i + 1 + j)) := by
  rw [List.range_succ_eq_map]
  simp only [List.map_cons, List.map_map, Nat.add_zero]
  congr 1
  apply List.map_congr_left
  intro j _
  simp only [Function.comp_apply]
  congr 1
  omega

/-- When the loop of `Signature.Args` returns an error, one position `k` has
been refused by the decoder, the positions before it have been decoded, and
the decoder has been called on the positions up to `k`, in order, and on no
other. -/
theorem Signature.argsLoop_err (R : Runtime Val W Host) (args : List Term) :
    ∀ (ins : List GoType) (i : Nat) (result : List Val) (watchers : List W) (log : List Event),
    (Signature.argsLoop R args ins i result watchers log).1 = ArgsResult.err →
    ∃ k, k < ins.length ∧
      (∃ t a, ins.get? k = some t ∧ args.get? (i + k) = some a ∧
        R.Decode t (canElement t) a = none) ∧
      (∀ j, j < k → ∃ t a, ins.get? j = some t ∧ args.get? (i + j) = some a ∧
        (R.Decode t (canElement t) a).isSome = true) ∧
      (Signature.argsLoop R args ins i result watchers log).2 =
        log ++ (List.range (k + 1)).map (fun j => Event.decode (i + j)) := by
  intro ins
  induction ins with
  | nil =>
    intro i result watchers log h
    simp [Signature.argsLoop] at h
  | cons t rest ih =>
    intro i result watchers log h
    unfold Signature.argsLoop at h ⊢
    by_cases hc : (canElement t && decide (t.Kind ≠ Kind.Ptr)) = true
    · rw [if_pos hc] at h
      simp at h
    · rw [if_neg hc] at h ⊢
      cases ha : args.get? i with
      | none =>
        rw [ha] at h
        simp at h
      | some a =>
        rw [ha] at h
        simp only at h ⊢
        cases hd : R.Decode t (canElement t) a with
        | none =>
          refine ⟨0, by simp, ⟨t, a, by simp, by simpa using ha, hd⟩, ?_, ?_⟩
          · intro j hj
            omega
          · simp [List.range_succ]
        | some p =>
          obtain ⟨v, ws⟩ := p
          rw [hd] at h
          simp only at h ⊢
          obtain ⟨k, hk, ⟨t2, a2, e1, e2, e3⟩, hbefore, hlog⟩ :=
            ih (i + 1) (result ++ [v]) (watchers ++ ws) (log ++ [Event.decode i]) h
          refine ⟨k + 1, by simpa using hk, ⟨t2, a2, by simpa using e1, ?_, e3⟩, ?_, ?_⟩
          · rw [← e2]
            congr 1
            omega
          · intro j hj
            cases j with
            | zero => exact ⟨t, a, by simp, by simpa using ha, by simp [hd]⟩
            | succ j =>
              obtain ⟨t3, a3, f1, f2, f3⟩ := hbefore j (by omega)
              refine ⟨t3, a3, by simpa using f1, ?_, f3⟩
              rw [← f2]
              congr 1
              omega
          · rw [hlog, decode_range_succ i (k + 1)]
            simp

/-- When the loop of `Signature.Args` returns values and watchers, every
position has been decoded, in order: the values and the watchers returned
are those the decoder gave, position by position, and the decoder has been
called once on each position. -/
theorem Signature.argsLoop_ok (R : Runtime Val W Host) (args : List Term) :
    ∀ (ins : List GoType) (i : Nat) (result : List Val) (watchers : List W) (log : List Event)
      (fargs : List Val) (ws : List W) (evs : List Event),
    Signature.argsLoop R args ins i result watchers log = (ArgsResult.ok fargs ws, evs) →
    ∃ decoded : List (Val × List W), decoded.length = ins.length ∧
      (∀ k, k < ins.length → ∃ t a v wk, ins.get? k = some t ∧ args.get? (i + k) = some a ∧
        R.Decode t (canElement t) a = some (v, wk) ∧ decoded.get? k = some (v, wk)) ∧
      fargs = result ++ decoded.map Prod.fst ∧
      ws = watchers ++ (decoded.map Prod.snd).flatten ∧
      evs = log ++ (List.range ins.length).map (fun j => Event.decode (i + j)) := by
  intro ins
  induction ins with
  | nil =>
    intro i result watchers log fargs ws evs h
    simp only [Signature.argsLoop, Prod.mk.injEq, ArgsResult.ok.injEq] at h
    obtain ⟨⟨h1, h2⟩, h3⟩ := h
    exact ⟨[], rfl, by simp, by simp [h1], by simp [h2], by simp [h3]⟩
  | cons t rest ih =>
    intro i result watchers log fargs ws evs h
    unfold Signature.argsLoop at h
    by_cases hc : (canElement t && decide (t.Kind ≠ Kind.Ptr)) = true
    · rw [if_pos hc] at h
      simp at h
    · rw [if_neg hc] at h
      cases ha : args.get? i with
      | none =>
        rw [ha] at h
        simp at h
      | some a =>
        rw [ha] at h
        simp only at h
        cases hd : R.Decode t (canElement t) a with
        | none =>
          rw [hd] at h
          simp at h
        | some p =>
          obtain ⟨v, w0⟩ := p
          rw [hd] at h
          simp only at h
          obtain ⟨decoded, hlen, hpos, hf, hw, hev⟩ :=
            ih (i + 1) (result ++ [v]) (watchers ++ w0) (log ++ [Event.decode i]) fargs ws evs h
          refine ⟨(v, w0) :: decoded, by simp [hlen], ?_, by simp [hf], by simp [hw], ?_⟩
          · intro k hk
            cases k with
            | zero => exact ⟨t, a, v, w0, by simp, by simpa using ha, hd, by simp⟩
            | succ k =>
              obtain ⟨t2, a2, v2, w2, e1, e2, e3, e4⟩ :=
                hpos k (by simpa using hk)
              refine ⟨t2, a2, v2, w2, by simpa using e1, ?_, e3, by simpa using e4⟩
              rw [← e2]
              congr 1
              omega
          · rw [hev, List.length_cons, decode_range_succ i rest.length]
            simp

/-- An argument list that `Signature.IsValid` accepts has the length of the
signature. -/
theorem Signature.IsValid_length (R : Runtime Val W Host) (s : Signature) (args : List Term)
    (h : Signature.IsValid R s args = some true) : args.length = s.length := by
  unfold Signature.IsValid at h
  by_cases hl : s.length ≠ args.length
  · rw [if_pos hl] at h
    simp at h
  · exact (not_not.mp hl).symm

/-- A loop of `NewSignature` that returns has added one Argument per
iteration. -/
theorem NewSignature.loop_some_length (mt : MethodType) :
    ∀ (n i : Nat) (args res : List Argument), NewSignature.loop mt n i args = some res →
    res.length = args.length + n := by
  intro n
  induction n with
  | zero =>
    intro i args res h
    simp only [NewSignature.loop, Option.some.injEq] at h
    simp [h]
  | succ n ih =>
    intro i args res h
    unfold NewSignature.loop at h
    cases hin : mt.In i with
    | none =>
      rw [hin] at h
      simp at h
    | some t =>
      rw [hin] at h
      simp only at h
      rw [ih (i + 1) _ res h]
      simp only [List.length_append, List.length_singleton]
      omega

/-- A signature that `NewSignature` returns has `NumIn + NumOut` Arguments. -/
theorem NewSignature_some_length (m : Method Val Host) (sig : Signature)
    (h : NewSignature m = some sig) : sig.length = m.Typ.NumIn + m.Typ.NumOut := by
  unfold NewSignature at h
  cases hl : NewSignature.loop m.Typ m.Typ.NumIn 0 [] with
  | none =>
    rw [hl] at h
    simp at h
  | some a =>
    rw [hl] at h
    simp only at h
    rw [NewSignature.loop_some_length m.Typ _ 0 a sig h,
      NewSignature.loop_some_length m.Typ _ 0 [] a hl]
    simp

/-- For a dispatcher whose signature is the one `NewSignature` gives for its
method, the return values of a call (one per result of the method, as
`reflect.Value.Call` returns them) are no more than the terms of an argument
list that passes validation. -/
theorem ForeignCall.generated_results_fit (R : Runtime Val W Host) (fc : ForeignCall Val Host)
    (m : Native.Method Val Host) (args : List Term) (fargs : List Val) (host : Host)
    (hsig : NewSignature m = some fc.Signature)
    (hv : Signature.IsValid R fc.Signature args = some true)
    (hres : (m.Func fargs host).1.length = m.Typ.NumOut) :
    (m.Func fargs host).1.length ≤ args.length := by
  rw [Signature.IsValid_length R _ _ hv, NewSignature_some_length m _ hsig, hres]
  omega

/-- C5: when a call of `Predicate` passes validation and the decoding of its
inputs returns an error, the decoder has refused one input position `i`
after decoding the positions before it, in order; the result is
`ForeignFail`, the host memory is as it was, and the only collaborator calls
made are the decoder calls on the positions 0 to `i`: the method is not
invoked. -/
theorem ForeignCall.Predicate_decode_error (R : Runtime Val W Host) (fc : ForeignCall Val Host)
    (m : Native.Method Val Host) (args : List Term) (w : World Host)
    (hv : Signature.IsValid R fc.Signature args = some true)
    (hm : fc.Method = some m)
    (he : (Signature.Args R fc.Signature m args).1 = ArgsResult.err) :
    ∃ i, i < m.Typ.NumIn ∧
      (∃ t a, m.Typ.In i = some t ∧ args.get? i = some a ∧
        R.Decode t (canElement t) a = none) ∧
      (∀ j, j < i → ∃ t a, m.Typ.In j = some t ∧ args.get? j = some a ∧
        (R.Decode t (canElement t) a).isSome = true) ∧
      ForeignCall.Predicate R fc args w =
        (Outcome.ForeignFail, ⟨w.host, w.log ++ (List.range (i + 1)).map Event.decode⟩) ∧
      invocations (ForeignCall.Predicate R fc args w).2.log = invocations w.log := by
  unfold Signature.Args at he
  obtain ⟨k, hk, hat, hbefore, hlog⟩ := Signature.argsLoop_err R args m.Typ.ins 0 [] [] [] he
  have hrun : ForeignCall.Predicate R fc args w =
      (Outcome.ForeignFail, ⟨w.host, w.log ++ (List.range (k + 1)).map Event.decode⟩) := by
    unfold ForeignCall.Predicate
    rw [hv, hm]
    simp only
    unfold Signature.Args
    cases hA : Signature.argsLoop R args m.Typ.ins 0 [] [] [] with
    | mk r evs =>
      rw [hA] at he hlog
      simp only at he hlog
      subst he
      simp [hlog]
  refine ⟨k, hk, ?_, ?_, hrun, ?_⟩
  · simpa [MethodType.In] using hat
  · simpa [MethodType.In] using hbefore
  · rw [hrun]
    simp [invocations, List.count_append, List.count_eq_zero]

/-- Witness of C5: `(*InOnly).Test2` called with a Float in its second
position, which the sample decoder refuses: positions 0 and 1 are decoded,
position 2 is not, and the method is not invoked. -/
theorem ForeignCall.Predicate_decode_error_witness :
    ForeignCall.Predicate Sample.runtime (Sample.dispatcher "InOnly" Sample.inOnlyTest2)
      [Term.Compound "io" [Term.Variable 1, Term.Variable 2], Term.Float 1, Term.Integer 5]
      Sample.world0 =
      (Outcome.ForeignFail, ⟨[0, 0, 0], [Event.decode 0, Event.decode 1]⟩) ∧
    ∃ i, i < Sample.inOnlyTest2.Typ.NumIn ∧
      (∃ t a, Sample.inOnlyTest2.Typ.In i = some t ∧
        [Term.Compound "io" [Term.Variable 1, Term.Variable 2], Term.Float 1,
          Term.Integer 5].get? i = some a ∧
        Sample.runtime.Decode t (canElement t) a = none) ∧
      (∀ j, j < i → ∃ t a, Sample.inOnlyTest2.Typ.In j = some t ∧
        [Term.Compound "io" [Term.Variable 1, Term.Variable 2], Term.Float 1,
          Term.Integer 5].get? j = some a ∧
        (Sample.runtime.Decode t (canElement t) a).isSome = true) ∧
      ForeignCall.Predicate Sample.runtime (Sample.dispatcher "InOnly" Sample.inOnlyTest2)
        [Term.Compound "io" [Term.Variable 1, Term.Variable 2], Term.Float 1, Term.Integer 5]
        Sample.world0 =
        (Outcome.ForeignFail,
          ⟨Sample.world0.host, Sample.world0.log ++ (List.range (i + 1)).map Event.decode⟩) ∧
      invocations (ForeignCall.Predicate Sample.runtime
        (Sample.dispatcher "InOnly" Sample.inOnlyTest2)
        [Term.Compound "io" [Term.Variable 1, Term.Variable 2], Term.Float 1, Term.Integer 5]
        Sample.world0).2.log = invocations Sample.world0.log :=
  ⟨rfl, ForeignCall.Predicate_decode_error Sample.runtime
    (Sample.dispatcher "InOnly" Sample.inOnlyTest2) Sample.inOnlyTest2
    [Term.Compound "io" [Term.Variable 1, Term.Variable 2], Term.Float 1, Term.Integer 5]
    Sample.world0 rfl rfl rfl⟩

/-- The loop over the return values pairs each of them, encoded, with the
term of `ures` at its index, as long as `ures` has a term there. -/
theorem ForeignCall.encodeLoop_eq (R : Runtime Val W Host) (ures : List Term) :
    ∀ (res : List Val) (i : Nat) (unified : List Term), i + res.length ≤ ures.length →
    ForeignCall.encodeLoop R ures res i unified =
      some (unified ++ (List.zipWith (fun t r => [t, R.Encode r]) (ures.drop i) res).flatten) := by
  intro res
  induction res with
  | nil =>
    intro i unified _
    simp [ForeignCall.encodeLoop]
  | cons r rest ih =>
    intro i unified h
    have hi : i < ures.length := by
      simp only [List.length_cons] at h
      omega
    unfold ForeignCall.encodeLoop
    rw [List.get?_eq_getElem?, List.getElem?_eq_getElem hi]
    simp only
    rw [ih (i + 1) _ (by simp only [List.length_cons] at h; omega),
      List.drop_eq_getElem_cons hi]
    simp only [List.zipWith_cons_cons, List.flatten_cons, List.append_assoc, List.cons_append,
      List.nil_append]

/-- The loop over the watchers appends, in order, the pair of every watcher
that has changed, and nothing for the others. -/
theorem ForeignCall.changedLoop_eq (R : Runtime Val W Host) (host : Host) :
    ∀ (ws : List W) (unified : List Term),
    ForeignCall.changedLoop R host ws unified =
      unified ++ (ws.filter (R.HasChanged host)).flatMap
        (fun x => [Term.Variable (R.Variable x), R.Encode (R.Value host x)]) := by
  intro ws
  induction ws with
  | nil =>
    intro unified
    simp [ForeignCall.changedLoop]
  | cons x rest ih =>
    intro unified
    unfold ForeignCall.changedLoop
    by_cases hx : R.HasChanged host x = true
    · rw [if_pos hx, ih, List.filter_cons_of_pos hx]
      simp
    · rw [if_neg hx, ih, List.filter_cons_of_neg hx]

/-- The run of `Predicate` past validation and decoding, when the return
values fit the argument list and there are no more watchers than distinct
Variables: the method is invoked once and the request is made of the output
pairs followed by the pairs of the watchers that have changed. -/
theorem ForeignCall.Predicate_run (R : Runtime Val W Host) (fc : ForeignCall Val Host)
    (m : Native.Method Val Host) (args : List Term) (w : World Host)
    (fargs : List Val) (watchers : List W) (evs : List Event)
    (hv : Signature.IsValid R fc.Signature args = some true)
    (hm : fc.Method = some m)
    (hd : Signature.Args R fc.Signature m args = (ArgsResult.ok fargs watchers, evs))
    (hl : (m.Func fargs w.host).1.length ≤ args.length)
    (ha : watchers.length ≤ (Watchers.Variables R watchers).length) :
    ForeignCall.Predicate R fc args w =
      (Outcome.ForeignUnify
        ((List.zipWith (fun t r => [t, R.Encode r])
            (args.drop (args.length - (m.Func fargs w.host).1.length))
            (m.Func fargs w.host).1).flatten ++
          (watchers.filter (R.HasChanged (m.Func fargs w.host).2)).flatMap
            (fun x => [Term.Variable (R.Variable x),
              R.Encode (R.Value (m.Func fargs w.host).2 x)])),
        ⟨(m.Func fargs w.host).2, w.log ++ evs ++ [Event.invoke]⟩) := by
  unfold ForeignCall.Predicate
  rw [hv, hm]
  simp only
  rw [hd]
  simp only
  rw [if_neg (Nat.not_lt.mpr hl),
    ForeignCall.encodeLoop_eq R _ _ 0 []
      (by rw [List.length_drop, Nat.zero_add]; exact (Nat.sub_sub_self hl).ge)]
  simp only
  rw [if_neg (Nat.not_lt.mpr ha), ForeignCall.changedLoop_eq]
  simp

/-- C6: a call of `Predicate` that passes validation and decoding and whose
watchers are not aliased invokes the method once and returns one unification
request: the term at each trailing output position paired with the encoding
of the return value of that position, in order, followed by the Variable of
each watcher that has changed paired with the encoding of its value after the
call; the watchers are those the decoder returned for the input positions,
in position order.  A watcher that has not changed adds nothing.  (The bound
`hl` holds for every generated dispatcher, see
`ForeignCall.generated_results_fit`: `reflect` returns one value per result
of the method, and the argument list has the length of the signature.) -/
theorem ForeignCall.Predicate_unify (R : Runtime Val W Host) (fc : ForeignCall Val Host)
    (m : Native.Method Val Host) (args : List Term) (w : World Host)
    (fargs : List Val) (watchers : List W) (evs : List Event)
    (hv : Signature.IsValid R fc.Signature args = some true)
    (hm : fc.Method = some m)
    (hd : Signature.Args R fc.Signature m args = (ArgsResult.ok fargs watchers, evs))
    (hl : (m.Func fargs w.host).1.length ≤ args.length)
    (ha : watchers.length ≤ (Watchers.Variables R watchers).length) :
    ForeignCall.Predicate R fc args w =
      (Outcome.ForeignUnify
        ((List.zipWith (fun t r => [t, R.Encode r])
            (args.drop (args.length - (m.Func fargs w.host).1.length))
            (m.Func fargs w.host).1).flatten ++
          (watchers.filter (R.HasChanged (m.Func fargs w.host).2)).flatMap
            (fun x => [Term.Variable (R.Variable x),
              R.Encode (R.Value (m.Func fargs w.host).2 x)])),
        ⟨(m.Func fargs w.host).2, w.log ++ evs ++ [Event.invoke]⟩) ∧
    ∃ decoded : List (Val × List W), decoded.length = m.Typ.NumIn ∧
      (∀ k, k < m.Typ.NumIn → ∃ t a v wk, m.Typ.In k = some t ∧ args.get? k = some a ∧
        R.Decode t (canElement t) a = some (v, wk) ∧ decoded.get? k = some (v, wk)) ∧
      fargs = decoded.map Prod.fst ∧
      watchers = (decoded.map Prod.snd).flatten ∧
      evs = (List.range m.Typ.NumIn).map Event.decode := by
  refine ⟨ForeignCall.Predicate_run R fc m args w fargs watchers evs hv hm hd hl ha, ?_⟩
  unfold Signature.Args at hd
  obtain ⟨decoded, hlen, hpos, hf, hw, hev⟩ :=
    Signature.argsLoop_ok R args m.Typ.ins 0 [] [] [] fargs watchers evs hd
  refine ⟨decoded, hlen, ?_, by simpa using hf, by simpa using hw, by simpa using hev⟩
  simpa [MethodType.In, MethodType.NumIn] using hpos

/-- Witness of C6: `Swap` on the receiver `io(X1, X2)` with the input 42 and
the output Variable `X9`: the request pairs `X9` with the returned 0 and `X1`
with the 42 now in field `A`; `X2`, whose field has not changed, is absent. -/
theorem ForeignCall.Predicate_unify_witness :
    ForeignCall.Predicate Sample.runtime (Sample.dispatcher "InOnly" Sample.inOnlySwap)
      [Term.Compound "io" [Term.Variable 1, Term.Variable 2], Term.Integer 42, Term.Variable 9]
      Sample.world0 =
      (Outcome.ForeignUnify
        [Term.Variable 9, Term.Integer 0, Term.Variable 1, Term.Integer 42],
        ⟨[42, 0, 0], [Event.decode 0, Event.decode 1, Event.invoke]⟩) :=
  (ForeignCall.Predicate_unify Sample.runtime (Sample.dispatcher "InOnly" Sample.inOnlySwap)
    Sample.inOnlySwap
    [Term.Compound "io" [Term.Variable 1, Term.Variable 2], Term.Integer 42, Term.Variable 9]
    Sample.world0 [0, 42] [⟨1, 0, 0⟩, ⟨2, 1, 0⟩] [Event.decode 0, Event.decode 1]
    rfl rfl rfl (by decide) (by decide)).1

/-- A call of `Predicate` that passes validation and decoding with more
watchers than distinct Variables invokes the method and then panics: with
"Not implemented" when the return values fit the argument list, and at the
slice `args[len(args)-len(res):]` otherwise. -/
theorem ForeignCall.Predicate_aliased (R : Runtime Val W Host) (fc : ForeignCall Val Host)
    (m : Native.Method Val Host) (args : List Term) (w : World Host)
    (fargs : List Val) (watchers : List W) (evs : List Event)
    (hv : Signature.IsValid R fc.Signature args = some true)
    (hm : fc.Method = some m)
    (hd : Signature.Args R fc.Signature m args = (ArgsResult.ok fargs watchers, evs))
    (hal : (Watchers.Variables R watchers).length < watchers.length) :
    ((m.Func fargs w.host).1.length ≤ args.length →
      ForeignCall.Predicate R fc args w = (Outcome.panics Fault.notImplemented,
        ⟨(m.Func fargs w.host).2, w.log ++ evs ++ [Event.invoke]⟩)) ∧
    (args.length < (m.Func fargs w.host).1.length →
      ForeignCall.Predicate R fc args w = (Outcome.panics Fault.sliceBounds,
        ⟨(m.Func fargs w.host).2, w.log ++ evs ++ [Event.invoke]⟩)) := by
  constructor
  · intro hl
    unfold ForeignCall.Predicate
    rw [hv, hm]
    simp only
    rw [hd]
    simp only
    rw [if_neg (Nat.not_lt.mpr hl),
      ForeignCall.encodeLoop_eq R _ _ 0 []
        (by rw [List.length_drop, Nat.zero_add]; exact (Nat.sub_sub_self hl).ge)]
    simp only
    rw [if_pos hal]
  · intro hl
    unfold ForeignCall.Predicate
    rw [hv, hm]
    simp only
    rw [hd]
    simp only
    rw [if_pos hl]

/-- A call of `Accessor` that passes validation and whose receiver term is
decoded panics in `reflect.Value.Field`: `FieldByIndex` is called on the
pointer returned by `reflect.New`, not on the struct it points to.  The
field-value term is not decoded and the host memory is not written. -/
theorem ForeignCall.Accessor_panics (R : Runtime Val W Host) (fc : ForeignCall Val Host)
    (args : List Term) (w : World Host) (ty : GoType) (a0 : Term)
    (val : Val) (ws : List W)
    (hv : Signature.IsValid R fc.Signature args = some true)
    (hty : fc.Typ = some ty)
    (h0 : args.get? 0 = some a0)
    (hd0 : R.Decode ty false a0 = some (val, ws)) :
    ForeignCall.Accessor R fc args w =
      (Outcome.panics Fault.valueField, ⟨w.host, w.log ++ [Event.decode 0]⟩) := by
  unfold ForeignCall.Accessor
  rw [hv, hty]
  simp only
  rw [h0]
  simp only
  rw [hd0]
  simp [FieldByIndex]

/-- The statements of `Accessor` after the field lookup panic with "Not
implemented" when the watchers of the receiver and of the field value are
more than their distinct Variables. -/
theorem ForeignCall.accessorRest_aliased (R : Runtime Val W Host) (fc : ForeignCall Val Host)
    (args : List Term) (w : World Host) (field : StructField) (a1 : Term) (val rval : Val)
    (ws rws : List W) (index : List Nat)
    (hfield : fc.Field = some field) (h1 : args.get? 1 = some a1)
    (hd1 : R.Decode field.Typ false a1 = some (rval, rws))
    (hal : (Watchers.Variables R (ws ++ rws)).length < (ws ++ rws).length) :
    ForeignCall.accessorRest R fc args w val ws index =
      (Outcome.panics Fault.notImplemented,
        ⟨R.SetField w.host val index rval, w.log ++ [Event.decode 0, Event.decode 1]⟩) := by
  unfold ForeignCall.accessorRest
  rw [hfield]
  simp only
  rw [h1]
  simp only
  rw [hd1]
  simp only
  rw [if_pos hal]

/-- C8: when a call of `Predicate` or of `Accessor` passes validation and
decoding and more watchers report a change than there are distinct Variables
among the watchers, the dispatcher panics: it returns neither `ForeignFail`
nor a unification request.  `Predicate` panics with "Not implemented" unless
`args[len(args)-len(res):]` has panicked before.  `Accessor` has panicked
already in `reflect.Value.Field`, before it decodes the field-value term; the
statements that follow the field lookup panic with "Not implemented" as
well. -/
theorem ForeignCall.changed_exceeds_variables_panics (R : Runtime Val W Host)
    (fc : ForeignCall Val Host) (m : Native.Method Val Host) (args : List Term) (w : World Host)
    (fargs : List Val) (watchers : List W) (evs : List Event)
    (fa : ForeignCall Val Host) (aargs : List Term) (wa : World Host) (ty : GoType)
    (field : StructField) (a0 a1 : Term) (val rval : Val) (ws rws : List W)
    (hv : Signature.IsValid R fc.Signature args = some true)
    (hm : fc.Method = some m)
    (hd : Signature.Args R fc.Signature m args = (ArgsResult.ok fargs watchers, evs))
    (hc : (Watchers.Variables R watchers).length <
      (watchers.filter (R.HasChanged (m.Func fargs w.host).2)).length)
    (hva : Signature.IsValid R fa.Signature aargs = some true)
    (hty : fa.Typ = some ty) (hfield : fa.Field = some field)
    (h0 : aargs.get? 0 = some a0) (hd0 : R.Decode ty false a0 = some (val, ws))
    (h1 : aargs.get? 1 = some a1) (hd1 : R.Decode field.Typ false a1 = some (rval, rws))
    (hca : (Watchers.Variables R (ws ++ rws)).length <
      ((ws ++ rws).filter (R.HasChanged (R.SetField wa.host val field.Index rval))).length) :
    (∃ f, (ForeignCall.Predicate R fc args w).1 = Outcome.panics f) ∧
    ((m.Func fargs w.host).1.length ≤ args.length →
      ForeignCall.Predicate R fc args w = (Outcome.panics Fault.notImplemented,
        ⟨(m.Func fargs w.host).2, w.log ++ evs ++ [Event.invoke]⟩)) ∧
    ForeignCall.Accessor R fa aargs wa =
      (Outcome.panics Fault.valueField, ⟨wa.host, wa.log ++ [Event.decode 0]⟩) ∧
    ForeignCall.accessorRest R fa aargs wa val ws field.Index =
      (Outcome.panics Fault.notImplemented,
        ⟨R.SetField wa.host val field.Index rval,
          wa.log ++ [Event.decode 0, Event.decode 1]⟩) := by
  have hal : (Watchers.Variables R watchers).length < watchers.length :=
    lt_of_lt_of_le hc (List.length_filter_le _ _)
  have hala : (Watchers.Variables R (ws ++ rws)).length < (ws ++ rws).length :=
    lt_of_lt_of_le hca (List.length_filter_le _ _)
  have hp := ForeignCall.Predicate_aliased R fc m args w fargs watchers evs hv hm hd hal
  refine ⟨?_, hp.1, ForeignCall.Accessor_panics R fa aargs wa ty a0 val ws hva hty h0 hd0,
    ForeignCall.accessorRest_aliased R fa aargs wa field a1 val rval ws rws field.Index
      hfield h1 hd1 hala⟩
  by_cases hl : (m.Func fargs w.host).1.length ≤ args.length
  · exact ⟨Fault.notImplemented, by rw [hp.1 hl]⟩
  · exact ⟨Fault.sliceBounds, by rw [hp.2 (Nat.lt_of_not_le hl)]⟩

/-- Witness of C8: `Test2` on the receiver `io(X1, X1)`, both of whose fields
the method changes, and the accessor of field `A` on the same receiver in a
host whose cells 0 and 1 are not zero. -/
theorem ForeignCall.changed_exceeds_variables_panics_witness :
    ForeignCall.Predicate Sample.runtime (Sample.dispatcher "InOnly" Sample.inOnlyTest2)
      [Term.Compound "io" [Term.Variable 1, Term.Variable 1], Term.Integer 42, Term.Integer 7]
      Sample.world0 = (Outcome.panics Fault.notImplemented,
        ⟨[42, 7, 0], [Event.decode 0, Event.decode 1, Event.decode 2, Event.invoke]⟩) ∧
    ForeignCall.Accessor Sample.runtime
      (GenerateAccessor Sample.runtime "InOnly" Sample.inOnlyT Sample.fieldA).2
      [Term.Compound "io" [Term.Variable 1, Term.Variable 1], Term.Integer 5]
      (World.mk [3, 4, 0] []) =
      (Outcome.panics Fault.valueField, ⟨[3, 4, 0], [Event.decode 0]⟩) :=
  have h := ForeignCall.changed_exceeds_variables_panics Sample.runtime
    (Sample.dispatcher "InOnly" Sample.inOnlyTest2) Sample.inOnlyTest2
    [Term.Compound "io" [Term.Variable 1, Term.Variable 1], Term.Integer 42, Term.Integer 7]
    Sample.world0 [0, 42, 7] [⟨1, 0, 0⟩, ⟨1, 1, 0⟩]
    [Event.decode 0, Event.decode 1, Event.decode 2]
    (GenerateAccessor Sample.runtime "InOnly" Sample.inOnlyT Sample.fieldA).2
    [Term.Compound "io" [Term.Variable 1, Term.Variable 1], Term.Integer 5]
    (World.mk [3, 4, 0] []) Sample.inOnlyT Sample.fieldA
    (Term.Compound "io" [Term.Variable 1, Term.Variable 1]) (Term.Integer 5) 0 5
    [⟨1, 0, 0⟩, ⟨1, 1, 0⟩] []
    rfl rfl rfl (by decide) rfl rfl rfl rfl rfl rfl rfl (by decide)
  ⟨h.2.1 (by decide), h.2.2.1⟩

/-! ### Methods without parameters and return values -/

/-- The signature of a method whose only input is its receiver and that
returns nothing is one unconstrained-mode argument of the receiver type. -/
theorem NewSignature_receiver_only (m : Method Val Host) (recv : GoType)
    (hins : m.Typ.ins = [recv]) (houts : m.Typ.outs = []) :
    NewSignature m = some [Argument.any (newAnyArg none (some recv))] := by
  simp [NewSignature, NewSignature.loop, MethodType.NumIn, MethodType.NumOut, MethodType.In,
    hins, houts]

/-- For a method whose only input is its receiver and that returns nothing,
when the receiver type is a pointer type or has no element type, the
predicate called with a receiver term that passes validation and decodes
without watchers invokes the method once and returns a unification request
with no term pair. -/
theorem ForeignCall.Predicate_receiver_only (R : Runtime Val W Host) (fc : ForeignCall Val Host)
    (m : Native.Method Val Host) (recv : GoType) (r : Term) (w : World Host) (v : Val)
    (hins : m.Typ.ins = [recv]) (hm : fc.Method = some m)
    (hk : canElement recv = true → recv.Kind = Kind.Ptr)
    (hv : Signature.IsValid R fc.Signature [r] = some true)
    (hdec : R.Decode recv (canElement recv) r = some (v, []))
    (hres : (m.Func [v] w.host).1 = []) :
    ForeignCall.Predicate R fc [r] w =
      (Outcome.ForeignUnify [], ⟨(m.Func [v] w.host).2, w.log ++ [Event.decode 0, Event.invoke]⟩) ∧
    invocations (ForeignCall.Predicate R fc [r] w).2.log = invocations w.log + 1 := by
  have hc : ¬ ((canElement recv && decide (recv.Kind ≠ Kind.Ptr)) = true) := by
    intro h
    simp only [Bool.and_eq_true, decide_eq_true_eq] at h
    exact h.2 (hk h.1)
  have hargs : Signature.Args R fc.Signature m [r] =
      (ArgsResult.ok [v] ([] : List W), [Event.decode 0]) := by
    unfold Signature.Args
    rw [hins]
    unfold Signature.argsLoop
    rw [if_neg hc]
    simp [hdec, Signature.argsLoop]
  have hrun := ForeignCall.Predicate_run R fc m [r] w [v] [] [Event.decode 0] hv hm hargs
    (by rw [hres]; simp) (by simp)
  have hrun2 : ForeignCall.Predicate R fc [r] w =
      (Outcome.ForeignUnify [],
        ⟨(m.Func [v] w.host).2, w.log ++ [Event.decode 0, Event.invoke]⟩) := by
    rw [hrun, hres]
    simp
  refine ⟨hrun2, ?_⟩
  rw [hrun2]
  simp [invocations, List.count_append]

/-- The test `TestNoInOut` on the sample host: `(*NoInOut).Test` called with
the receiver term alone succeeds with no term pair, and the flag `called` is
set by the one invocation. -/
theorem ForeignCall.Predicate_noInOut_sample :
    ForeignCall.Predicate Sample.runtime (Sample.dispatcher "NoInOut" Sample.noInOutTest)
      [Term.Atom "no_in_out"] Sample.world0 =
      (Outcome.ForeignUnify [], ⟨[0, 0, 1], [Event.decode 0, Event.invoke]⟩) :=
  rfl

/-- C7, at a method of a named slice type (`type IntList []int`,
`func (l IntList) Test()`): the receiver term is ground, passes validation
and is one the decoder accepts, yet `Predicate` panics in `Signature.Args`,
where `reflect.Value.Set` is given a `*int` for a slice, before the decoder
is called; the method is not invoked. -/
theorem ForeignCall.Predicate_slice_receiver_panics :
    Sample.intListTest.Typ.ins = [Sample.intListT] ∧ Sample.intListTest.Typ.outs = [] ∧
    (Term.Compound "l" [Term.Integer 1]).hasVariable = false ∧
    Signature.IsValid Sample.runtime (Sample.dispatcher "IntList" Sample.intListTest).Signature
      [Term.Compound "l" [Term.Integer 1]] = some true ∧
    Sample.runtime.Decode Sample.intListT true (Term.Compound "l" [Term.Integer 1])
      = some (0, []) ∧
    ForeignCall.Predicate Sample.runtime (Sample.dispatcher "IntList" Sample.intListTest)
      [Term.Compound "l" [Term.Integer 1]] Sample.world0 =
      (Outcome.panics Fault.setNotAssignable, Sample.world0) :=
  ⟨rfl, rfl, rfl, rfl, rfl, rfl⟩

/-! ### Arity -/

/-- A loop of `NewSignature` whose indices stay within the inputs returns,
with one more Argument per iteration. -/
theorem NewSignature.loop_length (mt : MethodType) :
    ∀ (n i : Nat) (args : List Argument), i + n ≤ mt.ins.length →
    ∃ res, NewSignature.loop mt n i args = some res ∧ res.length = args.length + n := by
  intro n
  induction n with
  | zero =>
    intro i args _
    exact ⟨args, rfl, rfl⟩
  | succ n ih =>
    intro i args h
    have hi : i < mt.ins.length := by omega
    obtain ⟨res, e1, e2⟩ := ih (i + 1)
      (args ++ [Argument.any (newAnyArg none (some mt.ins[i]))]) (by omega)
    refine ⟨res, ?_, ?_⟩
    · unfold NewSignature.loop
      simp only [MethodType.In, List.get?_eq_getElem?, List.getElem?_eq_getElem hi]
      exact e1
    · rw [e2]
      simp only [List.length_append, List.length_singleton]
      omega

/-- A loop of `NewSignature` that runs past the last input panics in
`m.Type.In(i)`. -/
theorem NewSignature.loop_panics (mt : MethodType) :
    ∀ (n i : Nat) (args : List Argument), i ≤ mt.ins.length → mt.ins.length < i + n →
    NewSignature.loop mt n i args = none := by
  intro n
  induction n with
  | zero =>
    intro i args hi h
    omega
  | succ n ih =>
    intro i args hi h
    unfold NewSignature.loop
    cases hin : mt.In i with
    | none => rfl
    | some t =>
      have hlt : i < mt.ins.length := by
        by_contra hge
        rw [MethodType.In, List.get?_eq_getElem?, List.getElem?_eq_none (by omega)] at hin
        exact Option.noConfusion hin
      simp only
      exact ih (i + 1) _ (by omega) (by omega)

/-- For a method with no more return values than inputs, `NewSignature`
returns a signature of `NumIn + NumOut` Arguments. -/
theorem NewSignature_length (m : Method Val Host) (h : m.Typ.NumOut ≤ m.Typ.NumIn) :
    ∃ sig, NewSignature m = some sig ∧ sig.length = m.Typ.NumIn + m.Typ.NumOut := by
  obtain ⟨a, e1, e2⟩ := NewSignature.loop_length m.Typ m.Typ.NumIn 0 []
    (by simp [MethodType.NumIn])
  obtain ⟨b, f1, f2⟩ := NewSignature.loop_length m.Typ m.Typ.NumOut 0 a
    (by simpa [MethodType.NumIn] using h)
  refine ⟨b, ?_, ?_⟩
  · unfold NewSignature
    rw [e1]
    exact f1
  · rw [f2, e2]
    simp

/-- For a method with more return values than inputs, `NewSignature` panics:
its second loop reads `m.Type.In(i)` for an `i` that only the return values
have. -/
theorem NewSignature_panics (m : Method Val Host) (h : m.Typ.NumIn < m.Typ.NumOut) :
    NewSignature m = none := by
  unfold NewSignature
  cases hl : NewSignature.loop m.Typ m.Typ.NumIn 0 [] with
  | none => rfl
  | some a =>
    simp only
    exact NewSignature.loop_panics m.Typ m.Typ.NumOut 0 a (Nat.zero_le _)
      (by simpa [MethodType.NumIn] using h)

/-- For a method with no more return values than inputs, `GenerateMethod`
returns a dispatcher whose signature has `NumIn + NumOut` Arguments and
whose arity is `NumIn + NumOut`. -/
theorem GenerateMethod_arity (R : Runtime Val W Host) (name : String) (m : Method Val Host)
    (h : m.Typ.NumOut ≤ m.Typ.NumIn) :
    ∃ key fc, GenerateMethod R name m = some (key, fc) ∧
      fc.Signature.length = m.Typ.NumIn + m.Typ.NumOut ∧
      fc.Arity = m.Typ.NumIn + m.Typ.NumOut := by
  obtain ⟨sig, e1, e2⟩ := NewSignature_length m h
  unfold GenerateMethod
  rw [e1]
  exact ⟨_, _, rfl, e2, rfl⟩

/-- The dispatcher that `GenerateAccessor` returns has a signature of 2
Arguments and arity 2. -/
theorem GenerateAccessor_arity (R : Runtime Val W Host) (name : String) (t : GoType)
    (f : StructField) :
    (GenerateAccessor R name t f).2.Signature.length = 2 ∧
    (GenerateAccessor R name t f).2.Arity = 2 :=
  ⟨rfl, rfl⟩

/-- C9, at a method with one input and two return values
(`func (io *InOnly) Both() (int, int)`): `NewSignature` panics and
`GenerateMethod` returns no dispatcher, instead of one with a signature of 3
Arguments and arity 3. -/
theorem GenerateMethod_more_outputs_panics :
    Sample.inOnlyBoth.Typ.NumIn = 1 ∧ Sample.inOnlyBoth.Typ.NumOut = 2 ∧
    NewSignature Sample.inOnlyBoth = none ∧
    (GenerateMethod Sample.runtime "InOnly" Sample.inOnlyBoth).isNone = true :=
  ⟨rfl, rfl, rfl, rfl⟩

/-! ### Field accessors -/

/-- C10, at the accessor of field `A` of `InOnly` called with the ground
receiver `io(5, 6)` and the unbound Variable `X9`: the call passes
validation, the receiver is decoded, and `Accessor` panics in
`reflect.Value.Field`; it returns no unification request, so `X9` is paired
with nothing. -/
theorem ForeignCall.Accessor_read_panics :
    (Term.Compound "io" [Term.Integer 5, Term.Integer 6]).hasVariable = false ∧
    Signature.IsValid Sample.runtime
      (GenerateAccessor Sample.runtime "InOnly" Sample.inOnlyT Sample.fieldA).2.Signature
      [Term.Compound "io" [Term.Integer 5, Term.Integer 6], Term.Variable 9] = some true ∧
    ForeignCall.Accessor Sample.runtime
      (GenerateAccessor Sample.runtime "InOnly" Sample.inOnlyT Sample.fieldA).2
      [Term.Compound "io" [Term.Integer 5, Term.Integer 6], Term.Variable 9] Sample.world0 =
      (Outcome.panics Fault.valueField, ⟨[0, 0, 0], [Event.decode 0]⟩) :=
  ⟨rfl, rfl, rfl⟩

/-! ### Typed arguments -/

/-- C11: for an argument with a host-type constraint `g` and a term whose
type tag meets the term-type constraint (if there is one), `typedArg.isValid`
returns true exactly when the term is a native handle whose carried type is
assignable to `g`, or the term is not a native handle and `DecodeGround` of
the term into a fresh value of type `g` returns no error (the term may be a
Variable or not: `typedArg.isValid` does not ask).  On a native handle the
result is the same whatever `DecodeGround` is: the decoder is not consulted. -/
theorem typedArg.isValid_typed (R : Runtime Val W Host) (ta : typedArg) (g : GoType) (t : Term)
    (hg : ta.gType = some g) (hp : ∀ p, ta.pType = some p → p = t.Type) :
    (typedArg.isValid R ta t = true ↔
      (∃ tag gt, t = Term.Native tag gt ∧ R.AssignableTo gt g = true) ∨
      (IsNative t = false ∧ R.DecodeGround g t = true)) ∧
    (∀ tag gt (dg : GoType → Term → Bool), t = Term.Native tag gt →
      typedArg.isValid (Runtime.mk dg R.Decode R.Encode R.AssignableTo R.Variable R.HasChanged
        R.Value R.SetField R.gpName) ta t = typedArg.isValid R ta t) := by
  have hcond : (match ta.pType with
      | some p => decide (p ≠ t.Type)
      | none => false) = false := by
    cases hpt : ta.pType with
    | none => rfl
    | some p => simp [hp p hpt]
  constructor
  · unfold typedArg.isValid
    rw [hcond, hg]
    cases t with
    | Native tag gt =>
      simp only [IsNative]
      constructor
      · intro h
        left
        refine ⟨tag, gt, rfl, ?_⟩
        cases ha : R.AssignableTo gt g
        · simp [ha] at h
        · rfl
      · intro h
        rcases h with ⟨tag2, gt2, e, h⟩ | ⟨h1, _⟩
        · cases e
          simp [h]
        · exact absurd h1 (by decide)
    | _ => simp [IsNative]
  · intro tag gt dg ht
    subst ht
    unfold typedArg.isValid
    rw [hcond, hg]

/-- Witness of C11: an `int` constraint without term-type constraint, on a
native handle that carries an `int`. -/
theorem typedArg.isValid_typed_witness :
    typedArg.isValid Sample.runtime (typedArg.mk none (some Sample.intT))
      (Term.Native TermType.AtomType Sample.intT) = true :=
  ((typedArg.isValid_typed Sample.runtime (typedArg.mk none (some Sample.intT)) Sample.intT
    (Term.Native TermType.AtomType Sample.intT) rfl (fun _ h => Option.noConfusion h)).1).2
    (Or.inl ⟨TermType.AtomType, Sample.intT, rfl, rfl⟩)

/-! ### Totality -/

/-- A String term is built from Compound, Integer and Atom only. -/
theorem Term.codeList_basic : ∀ cs : List Char, (Term.codeList cs).basic = true
  | [] => rfl
  | c :: cs => by
    simp [Term.codeList, Term.basic, Term.basicList, Term.codeList_basic cs]

/-- No Variable occurs in a String term. -/
theorem Term.codeList_hasVariable : ∀ cs : List Char, (Term.codeList cs).hasVariable = false
  | [] => rfl
  | c :: cs => by
    simp [Term.codeList, Term.hasVariable, Term.hasVariableList, Term.codeList_hasVariable cs]

/-- C16: on every term of the variants Variable, Atom, Integer, Float,
String, Compound and Error, at any nesting, `groundArg.isGround` returns a
boolean (it does not reach its panic branch), and the boolean is true exactly
when no Variable occurs in the term.  A String term is such a term and is
ground, and so is a Compound of a String and of arguments without
Variable. -/
theorem isGround_total (t : Term) (h : t.basic = true) :
    (∃ b, groundArg.isGround t = some b) ∧
    (groundArg.isGround t = some true ↔ t.hasVariable = false) ∧
    (∀ s : String, (Term.String s).basic = true ∧ (Term.String s).hasVariable = false ∧
      groundArg.isGround (Term.String s) = some true) ∧
    (∀ (s : String) (f : String) (args : List Term), Term.basicList args = true →
      Term.hasVariableList args = false →
      groundArg.isGround (Term.Compound f (Term.String s :: args)) = some true) := by
  have ht := groundArg.isGround_basic t h
  have hs : ∀ s : String, groundArg.isGround (Term.String s) = some true := by
    intro s
    show groundArg.isGround (Term.codeList s.toList) = some true
    rw [groundArg.isGround_basic _ (Term.codeList_basic s.toList)]
    simp [Term.codeList_hasVariable]
  refine ⟨⟨_, ht⟩, ?_, ?_, ?_⟩
  · rw [ht]
    cases t.hasVariable <;> simp
  · intro s
    exact ⟨Term.codeList_basic s.toList, Term.codeList_hasVariable s.toList, hs s⟩
  · intro s f args hb hv
    have hb2 : (Term.Compound f (Term.String s :: args)).basic = true := by
      simp [Term.basic, Term.basicList, Term.String, Term.codeList_basic, hb]
    rw [groundArg.isGround_basic _ hb2]
    simp [Term.hasVariable, Term.hasVariableList, Term.String, Term.codeList_hasVariable, hv]

/-- Witness of C16: the String `"foo"` and the Compound `f(a, "foo")` are
ground, and `f(a, "foo", X1)` is not. -/
theorem isGround_total_witness :
    groundArg.isGround (Term.String "foo") = some true ∧
    (Term.Compound "f" [Term.Atom "a", Term.String "foo"]).basic = true ∧
    groundArg.isGround (Term.Compound "f" [Term.Atom "a", Term.String "foo"]) = some true ∧
    groundArg.isGround (Term.Compound "f" [Term.Atom "a", Term.String "foo", Term.Variable 1])
      = some false :=
  ⟨rfl, rfl,
    (isGround_total (Term.Compound "f" [Term.Atom "a", Term.String "foo"]) rfl).2.1.mpr
      rfl,
    rfl⟩

/-- C17, refuted for every method with more return values than inputs: the
first loop of `NewSignature` returns, the second reads `m.Type.In(i)` at
`i = NumIn`, which is out of range, and `NewSignature` panics. -/
theorem NewSignature_out_of_range (m : Method Val Host) (h : m.Typ.NumIn < m.Typ.NumOut) :
    (∃ args, NewSignature.loop m.Typ m.Typ.NumIn 0 [] = some args) ∧
    m.Typ.In m.Typ.NumIn = none ∧
    NewSignature m = none := by
  refine ⟨?_, ?_, NewSignature_panics m h⟩
  · obtain ⟨a, e1, _⟩ := NewSignature.loop_length m.Typ m.Typ.NumIn 0 []
      (by simp [MethodType.NumIn])
    exact ⟨a, e1⟩
  · simp [MethodType.In, MethodType.NumIn]

/-- Witness of C17: `func (io *InOnly) Both() (int, int)`, with one input and
two return values. -/
theorem NewSignature_out_of_range_witness :
    Sample.inOnlyBoth.Typ.NumIn < Sample.inOnlyBoth.Typ.NumOut ∧
    Sample.inOnlyBoth.Typ.In 1 = none ∧
    NewSignature Sample.inOnlyBoth = none :=
  ⟨by decide, (NewSignature_out_of_range Sample.inOnlyBoth (by decide)).2⟩

/-! ### Rendering -/

/-- The two replacements of `typedArg.String`, one after the other, give the
text in which every `.` is `_` and every `*` is `ptr_`. -/
theorem Replace_eq_sanitized (s : List Char) :
    Replace (Replace s '.' ['_']) '*' ['p', 't', 'r', '_'] = sanitized s := by
  induction s with
  | nil => rfl
  | cons c rest ih =>
    have hstep : Replace (Replace (c :: rest) '.' ['_']) '*' ['p', 't', 'r', '_'] =
        Replace (if c = '.' then ['_'] else [c]) '*' ['p', 't', 'r', '_'] ++
          Replace (Replace rest '.' ['_']) '*' ['p', 't', 'r', '_'] := by
      simp [Replace, List.flatMap_cons, List.flatMap_append]
    rw [hstep, ih]
    by_cases h1 : c = '.'
    · subst h1
      simp [Replace, sanitized, List.flatMap_cons]
    · by_cases h2 : c = '*'
      · subst h2
        simp [Replace, sanitized, List.flatMap_cons]
      · simp [Replace, sanitized, List.flatMap_cons, h1, h2]

/-- A character other than `_`, `p`, `t` and `r` is in the sanitized text
only if it is in the text, and neither `.` nor `*` is in the sanitized text. -/
theorem sanitized_mem (s : List Char) :
    '.' ∉ sanitized s ∧ '*' ∉ sanitized s ∧ ('%' ∈ sanitized s → '%' ∈ s) := by
  refine ⟨?_, ?_, ?_⟩
  · intro h
    obtain ⟨c, _, hc⟩ := List.mem_flatMap.mp h
    by_cases h1 : c = '.'
    · simp [h1] at hc
    · by_cases h2 : c = '*'
      · simp [h2] at hc
      · simp only [h1, h2, ↓reduceIte, List.mem_singleton] at hc
        exact h1 hc.symm
  · intro h
    obtain ⟨c, _, hc⟩ := List.mem_flatMap.mp h
    by_cases h1 : c = '.'
    · simp [h1] at hc
    · by_cases h2 : c = '*'
      · simp [h2] at hc
      · simp only [h1, h2, ↓reduceIte, List.mem_singleton] at hc
        exact h2 hc.symm
  · intro h
    obtain ⟨c, hmem, hc⟩ := List.mem_flatMap.mp h
    by_cases h1 : c = '.'
    · simp [h1] at hc
    · by_cases h2 : c = '*'
      · simp [h2] at hc
      · simp only [h1, h2, ↓reduceIte, List.mem_singleton] at hc
        rw [hc]
        exact hmem

/-- The call `fmt.Sprintf` on a format made of one character that is not
`%`, the verb `%s` and a text without `%`. -/
theorem Sprintf_template (mode : Char) (suffix arg : List Char) (hm : mode ≠ '%')
    (hs : '%' ∉ suffix) :
    Sprintf (mode :: '%' :: 's' :: suffix) arg = some (mode :: (arg ++ suffix)) := by
  have h2 : Sprintf ('%' :: 's' :: suffix) arg = some (arg ++ suffix) := by
    simp [Sprintf, Sprintf.literal, hs]
  unfold Sprintf
  split
  · rename_i heq
    simp at heq
  · rename_i heq
    simp only [List.cons.injEq] at heq
    exact absurd heq.1 hm
  · rename_i heq
    simp only [List.cons.injEq] at heq
    exact absurd heq.1 hm
  · rename_i heq
    simp only [List.cons.injEq] at heq
    obtain ⟨e1, e2⟩ := heq
    subst e1
    subst e2
    rw [h2]

/-- The text of `typedArg.String`: a mode marker, the verb `%s` and, when
there is a host-type constraint, `_` and the sanitized text of the type. -/
theorem typedArg.String_template (typeString : GoType → List Char) (ta : typedArg) :
    ∃ mode, mode ∈ ['-', '+', '?'] ∧
      ta.String typeString = mode :: '%' :: 's' ::
        (match ta.gType with
          | some g => '_' :: sanitized (typeString g)
          | none => []) ∧
      (ta.pType = none → mode = '?') := by
  unfold typedArg.String
  cases hg : ta.gType with
  | none =>
    cases hp : ta.pType with
    | none => exact ⟨'?', by simp, by simp, fun _ => rfl⟩
    | some p =>
      cases p
      · exact ⟨'-', by simp, by simp, fun h => Option.noConfusion h⟩
      · exact ⟨'+', by simp, by simp, fun h => Option.noConfusion h⟩
      · exact ⟨'+', by simp, by simp, fun h => Option.noConfusion h⟩
      · exact ⟨'+', by simp, by simp, fun h => Option.noConfusion h⟩
      · exact ⟨'?', by simp, by simp, fun h => Option.noConfusion h⟩
      · exact ⟨'?', by simp, by simp, fun h => Option.noConfusion h⟩
  | some g =>
    simp only [Replace_eq_sanitized]
    cases hp : ta.pType with
    | none => exact ⟨'?', by simp, by simp, fun _ => rfl⟩
    | some p =>
      cases p
      · exact ⟨'-', by simp, by simp, fun h => Option.noConfusion h⟩
      · exact ⟨'+', by simp, by simp, fun h => Option.noConfusion h⟩
      · exact ⟨'+', by simp, by simp, fun h => Option.noConfusion h⟩
      · exact ⟨'+', by simp, by simp, fun h => Option.noConfusion h⟩
      · exact ⟨'?', by simp, by simp, fun h => Option.noConfusion h⟩
      · exact ⟨'?', by simp, by simp, fun h => Option.noConfusion h⟩

/-- The text of `Argument.String`: a mode marker, which is `-` for a
`varArg`, `+` for a `groundArg` and `?` for an `anyArg` without term-type
constraint, the verb `%s` and, when there is a host-type constraint, `_` and
the sanitized text of the type. -/
theorem Argument.String_shape (typeString : GoType → List Char) (a : Argument) :
    ∃ mode, mode ∈ ['-', '+', '?'] ∧
      a.String typeString = mode :: '%' :: 's' ::
        (match a.gType with
          | some g => '_' :: sanitized (typeString g)
          | none => []) ∧
      (∀ va, a = Argument.var va → mode = '-') ∧
      (∀ ga, a = Argument.ground ga → mode = '+') ∧
      (∀ ga, a = Argument.any ga → ga.typedArg.pType = none → mode = '?') := by
  cases a with
  | var va =>
    exact ⟨'-', by simp, rfl, fun _ _ => rfl, fun _ h => Argument.noConfusion h,
      fun _ h => Argument.noConfusion h⟩
  | ground ga =>
    obtain ⟨mode, _, hs, _⟩ := typedArg.String_template typeString ga.typedArg
    refine ⟨'+', by simp, ?_, fun _ h => Argument.noConfusion h, fun _ _ => rfl,
      fun _ h => Argument.noConfusion h⟩
    simp [Argument.String, groundArg.String, Argument.gType, hs]
  | any ga =>
    obtain ⟨mode, hm, hs, hq⟩ := typedArg.String_template typeString ga.typedArg
    refine ⟨mode, hm, ?_, fun _ h => Argument.noConfusion h, fun _ h => Argument.noConfusion h,
      ?_⟩
    · simpa [Argument.String, anyArg.String, Argument.gType] using hs
    · intro ga2 e hp
      cases e
      exact hq hp

/-- The rendering of an Argument whose type text has no `%`: the marker and
the rest of its text around the operand. -/
theorem Argument.Sprintf_String (typeString : GoType → List Char) (a : Argument)
    (letter : List Char) (h : ∀ g, a.gType = some g → '%' ∉ typeString g) :
    Sprintf (a.String typeString) letter =
      some ((a.String typeString).take 1 ++ letter ++ (a.String typeString).drop 3) := by
  obtain ⟨mode, hm, hs, _⟩ := Argument.String_shape typeString a
  have hne : mode ≠ '%' := by
    intro e
    subst e
    simp at hm
  have hsuf : '%' ∉ (match a.gType with
      | some g => '_' :: sanitized (typeString g)
      | none => []) := by
    cases hg : a.gType with
    | none => simp
    | some g =>
      intro hmem
      simp only [List.mem_cons] at hmem
      rcases hmem with e | hmem
      · exact absurd e (by decide)
      · exact h g hg ((sanitized_mem (typeString g)).2.2 hmem)
  rw [hs, Sprintf_template mode _ letter hne hsuf]
  simp

/-- C13: the rendered text of an Argument whose type text has no `%` (the
formats of the embedding of `fmt.Sprintf`) is a mode marker, the operand
that fills the placeholder, and a suffix.  The marker is `-` for a `varArg`,
`+` for a `groundArg` whatever its term-type constraint, and `?` for an
`anyArg` without term-type constraint.  With a host-type constraint the
suffix is `_` followed by the text of the type in which every `.` is `_` and
every `*` is `ptr_`, as the two calls of `strings.Replace` give it, and it
holds neither `.` nor `*`; without one the suffix is empty. -/
theorem Argument.String_rendered (typeString : GoType → List Char) (a : Argument)
    (letter : List Char) (h : ∀ g, a.gType = some g → '%' ∉ typeString g) :
    ∃ marker suffix, Sprintf (a.String typeString) letter = some (marker :: (letter ++ suffix)) ∧
      (∀ va, a = Argument.var va → marker = '-') ∧
      (∀ ga, a = Argument.ground ga → marker = '+') ∧
      (∀ ga, a = Argument.any ga → ga.typedArg.pType = none → marker = '?') ∧
      (∀ g, a.gType = some g →
        suffix = '_' :: sanitized (typeString g) ∧
        suffix = ['_'] ++ Replace (Replace (typeString g) '.' ['_']) '*' ['p', 't', 'r', '_'] ∧
        '.' ∉ suffix ∧ '*' ∉ suffix) ∧
      (a.gType = none → suffix = []) := by
  obtain ⟨mode, hm, hs, hvar, hground, hany⟩ := Argument.String_shape typeString a
  refine ⟨mode, (match a.gType with
      | some g => '_' :: sanitized (typeString g)
      | none => []), ?_, hvar, hground, hany, ?_, ?_⟩
  · rw [Argument.Sprintf_String typeString a letter h, hs]
    simp
  · intro g hg
    rw [hg]
    refine ⟨rfl, by simp [Replace_eq_sanitized], ?_, ?_⟩
    · intro hmem
      simp only [List.mem_cons] at hmem
      rcases hmem with e | hmem
      · exact absurd e (by decide)
      · exact (sanitized_mem (typeString g)).1 hmem
    · intro hmem
      simp only [List.mem_cons] at hmem
      rcases hmem with e | hmem
      · exact absurd e (by decide)
      · exact (sanitized_mem (typeString g)).2.1 hmem
  · intro hg
    rw [hg]

/-- Witness of C13: the argument of a `*native.InOnly` parameter, rendered at
position `A`. -/
theorem Argument.String_rendered_witness :
    Sprintf ((Argument.any (newAnyArg none (some Sample.ptrInOnlyT))).String Sample.typeString)
      ['A'] = some ['?', 'A', '_', 'p', 't', 'r', '_', 'n', 'a', 't', 'i', 'v', 'e', '_', 'I',
        'n', 'O', 'n', 'l', 'y'] ∧
    ∃ marker suffix,
      Sprintf ((Argument.any (newAnyArg none (some Sample.ptrInOnlyT))).String Sample.typeString)
        ['A'] = some (marker :: (['A'] ++ suffix)) ∧
      (∀ va, Argument.any (newAnyArg none (some Sample.ptrInOnlyT)) = Argument.var va →
        marker = '-') ∧
      (∀ ga, Argument.any (newAnyArg none (some Sample.ptrInOnlyT)) = Argument.ground ga →
        marker = '+') ∧
      (∀ ga, Argument.any (newAnyArg none (some Sample.ptrInOnlyT)) = Argument.any ga →
        ga.typedArg.pType = none → marker = '?') ∧
      (∀ g, (Argument.any (newAnyArg none (some Sample.ptrInOnlyT))).gType = some g →
        suffix = '_' :: sanitized (Sample.typeString g) ∧
        suffix = ['_'] ++
          Replace (Replace (Sample.typeString g) '.' ['_']) '*' ['p', 't', 'r', '_'] ∧
        '.' ∉ suffix ∧ '*' ∉ suffix) ∧
      ((Argument.any (newAnyArg none (some Sample.ptrInOnlyT))).gType = none → suffix = []) :=
  ⟨by decide, Argument.String_rendered Sample.typeString
    (Argument.any (newAnyArg none (some Sample.ptrInOnlyT))) ['A']
    (fun g hg => by
      simp only [Argument.gType, newAnyArg, Option.some.injEq] at hg
      subst hg
      decide)⟩

/-- The loop of `Signature.String` from the rune `'A' + k` on appends, for
each Argument, its marker, the letter of its position and the rest of its
text. -/
theorem Signature.stringLoop_eq (typeString : GoType → List Char) :
    ∀ (s : List Argument) (k : Nat) (chunks : List (List Char)),
    (∀ a ∈ s, ∀ g, Argument.gType a = some g → '%' ∉ typeString g) →
    Signature.stringLoop typeString s (65 + k) chunks =
      some (chunks ++ (s.enumFrom k).map (fun p =>
        (p.2.String typeString).take 1 ++ [Char.ofNat (65 + p.1)] ++
          (p.2.String typeString).drop 3)) := by
  intro s
  induction s with
  | nil =>
    intro k chunks _
    simp [Signature.stringLoop]
  | cons a rest ih =>
    intro k chunks h
    unfold Signature.stringLoop
    rw [Argument.Sprintf_String typeString a [Char.ofNat (65 + k)]
      (fun g hg => h a (List.mem_cons_self a rest) g hg)]
    simp only
    rw [show 65 + k + 1 = 65 + (k + 1) from by omega,
      ih (k + 1) _ (fun b hb => h b (List.mem_cons_of_mem a hb))]
    simp [List.enumFrom_cons]

/-- The runes `'A'`, ..., `'A' + 25` are capital letters. -/
theorem capital_letter (i : Nat) (h : i < 26) : (Char.ofNat (65 + i)).isUpper = true := by
  interval_cases i <;> decide

/-- C14: for a signature of at most 26 Arguments whose type texts have no `%`
(the formats of the embedding of `fmt.Sprintf`), `Signature.String` is the
rendered Arguments joined by `" -> "` in signature order; the Argument at
position `i` is its mode marker, the rune `'A' + i`, which is a capital
letter, and the rest of its text.  (The same holds for the empty signature,
whose text is empty.) -/
theorem Signature.String_arrows (typeString : GoType → List Char) (s : Signature)
    (h26 : s.length ≤ 26)
    (h : ∀ a ∈ s, ∀ g, Argument.gType a = some g → '%' ∉ typeString g) :
    Signature.String typeString s =
      some (List.intercalate [' ', '-', '>', ' '] (s.enum.map (fun p =>
        (p.2.String typeString).take 1 ++ [Char.ofNat ('A'.toNat + p.1)] ++
          (p.2.String typeString).drop 3))) ∧
    (∀ i, i < s.length → (Char.ofNat ('A'.toNat + i)).isUpper = true) := by
  constructor
  · unfold Signature.String
    have hl := Signature.stringLoop_eq typeString s 0 [] h
    simp only [Nat.add_zero] at hl
    rw [hl]
    simp [Join, List.enum]
  · intro i hi
    exact capital_letter i (by omega)

/-- Witness of C14: the signature of `(*InOnly).Test2(a int, b string)`
renders as three chunks named `A`, `B`, `C` with two separators. -/
theorem Signature.String_arrows_witness :
    Signature.String Sample.typeString
      [Argument.any (newAnyArg none (some Sample.ptrInOnlyT)),
        Argument.any (newAnyArg none (some Sample.intT)),
        Argument.any (newAnyArg none (some Sample.stringT))] =
      some ("?A_ptr_native_InOnly -> ?B_int -> ?C_string").toList ∧
    Signature.String Sample.typeString
      [Argument.any (newAnyArg none (some Sample.ptrInOnlyT)),
        Argument.any (newAnyArg none (some Sample.intT)),
        Argument.any (newAnyArg none (some Sample.stringT))] =
      some (List.intercalate [' ', '-', '>', ' ']
        ([Argument.any (newAnyArg none (some Sample.ptrInOnlyT)),
          Argument.any (newAnyArg none (some Sample.intT)),
          Argument.any (newAnyArg none (some Sample.stringT))].enum.map (fun p =>
        (p.2.String Sample.typeString).take 1 ++ [Char.ofNat ('A'.toNat + p.1)] ++
          (p.2.String Sample.typeString).drop 3))) :=
  ⟨by decide, (Signature.String_arrows Sample.typeString
    [Argument.any (newAnyArg none (some Sample.ptrInOnlyT)),
      Argument.any (newAnyArg none (some Sample.intT)),
      Argument.any (newAnyArg none (some Sample.stringT))] (by decide)
    (fun a ha g hg => by
      simp only [List.mem_cons, List.mem_singleton, List.not_mem_nil, or_false] at ha
      rcases ha with e | e | e <;> subst e <;>
        simp only [Argument.gType, newAnyArg, Option.some.injEq] at hg <;> subst hg <;>
        decide)).1⟩

/-! ### Keys and naming root -/

/-- For a method with no more return values than inputs, the key that
`GenerateMethod` returns is `gpName` of the root, `_` and the method name,
followed by `/` and the decimal text of `NumIn + NumOut`. -/
theorem GenerateMethod_key (R : Runtime Val W Host) (name : String) (m : Method Val Host)
    (h : m.Typ.NumOut ≤ m.Typ.NumIn) :
    ∃ fc, GenerateMethod R name m =
      some (R.gpName (name ++ "_" ++ m.Name) ++ "/" ++ toString (m.Typ.NumIn + m.Typ.NumOut),
        fc) := by
  obtain ⟨sig, e1, _⟩ := NewSignature_length m h
  unfold GenerateMethod
  rw [e1]
  exact ⟨_, rfl⟩

/-- The key that `GenerateAccessor` returns is `gpName` of the root, `_` and
the field name, followed by `/2`. -/
theorem GenerateAccessor_key (R : Runtime Val W Host) (name : String) (t : GoType)
    (f : StructField) :
    (GenerateAccessor R name t f).1 = R.gpName (name ++ "_" ++ f.Name) ++ "/" ++ "2" := by
  show R.gpName (name ++ "_" ++ f.Name) ++ "/" ++ toString 2 = _
  rw [show toString 2 = "2" from by decide]

/-- C12, at a method with one input and two return values
(`func (io *InOnly) Both() (int, int)`) and the root `InOnly`:
`GenerateMethod` returns no key, where the claim has the key of
`InOnly_Both` with arity 3.  On a method with as many inputs as return
values or more, and on a field, the keys are as the claim says. -/
theorem GenerateMethod_no_key :
    Sample.inOnlyBoth.Typ.NumIn + Sample.inOnlyBoth.Typ.NumOut = 3 ∧
    (GenerateMethod Sample.runtime "InOnly" Sample.inOnlyBoth).map Prod.fst = none ∧
    (GenerateMethod Sample.runtime "InOnly" Sample.inOnlySwap).map Prod.fst =
      some "InOnly_Swap/3" ∧
    (GenerateAccessor Sample.runtime "InOnly" Sample.inOnlyT Sample.fieldA).1 = "InOnly_A/2" := by
  refine ⟨rfl, rfl, ?_, ?_⟩ <;> decide

/-- The name that `GenerateMethods` and `GenerateAccessors` compute for a
type is the name of the type when it is not empty, and the name of the
element type for an unnamed array, chan, map, pointer or slice type. -/
theorem nameRoot_eq (t : GoType) :
    (t.Name ≠ "" → nameRoot t = some t.Name) ∧
    (∀ pkg kind elem, t = GoType.over pkg "" kind elem → nameRoot t = some elem.Name) ∧
    (t.Kind = Kind.Struct → nameRoot t = some t.Name) := by
  refine ⟨?_, ?_, ?_⟩
  · intro h
    simp [nameRoot, h]
  · intro pkg kind elem e
    subst e
    cases kind <;> simp [nameRoot, GoType.Name, canElement, GoType.Kind, ElemKind.toKind, GoType.Elem]
  · intro h
    simp [nameRoot, canElement, h]

/-- The loop of `GenerateMethods` gives the same root to `GenerateMethod` for
every method. -/
theorem GenerateMethods.loop_eq (R : Runtime Val W Host) (t : GoType) (root : String)
    (hr : nameRoot t = some root) :
    ∀ (ms : List (Method Val Host)) (result : List (String × ForeignCall Val Host)),
    GenerateMethods.loop R t ms result =
      ms.foldlM (fun acc m => (GenerateMethod R root m).map (fun kv => mapSet acc kv.1 kv.2))
        result := by
  intro ms
  induction ms with
  | nil =>
    intro result
    rfl
  | cons m rest ih =>
    intro result
    unfold GenerateMethods.loop
    rw [hr]
    simp only [List.foldlM_cons]
    cases hg : GenerateMethod R root m with
    | none => simp
    | some kv =>
      obtain ⟨k, v⟩ := kv
      simp only [Option.map_some', Option.bind_eq_bind, Option.some_bind]
      exact ih _

/-- The loop of `GenerateAccessors` gives the same root to `GenerateAccessor`
for every field. -/
theorem GenerateAccessors.loop_fold (R : Runtime Val W Host) (t : GoType) (root : String)
    (hr : nameRoot t = some root) :
    ∀ (fs : List StructField) (result : List (String × ForeignCall Val Host)),
    GenerateAccessors.loop R t fs result =
      some (fs.foldl (fun acc f =>
        mapSet acc (GenerateAccessor R root t f).1 (GenerateAccessor R root t f).2) result) := by
  intro fs
  induction fs with
  | nil =>
    intro result
    rfl
  | cons f rest ih =>
    intro result
    unfold GenerateAccessors.loop
    rw [hr]
    simp only [List.foldl_cons]
    exact ih _

/-- For every host type given to `GenerateMethods`, and every struct type
given to `GenerateAccessors`, the root given to the generator is the name of
the type when that name is not empty and otherwise, for an unnamed array,
chan, map, pointer or slice type, the name of its element type (for a struct
type, its own name); the same root is given for every method and for every
field.  On a type that is not a struct `GenerateAccessors` panics. -/
theorem naming_root (R : Runtime Val W Host) (t : GoType) :
    (t.Name ≠ "" → nameRoot t = some t.Name) ∧
    (∀ pkg kind elem, t = GoType.over pkg "" kind elem → nameRoot t = some elem.Name) ∧
    (∀ (ms : List (Method Val Host)) root, nameRoot t = some root →
      GenerateMethods R t ms =
        ms.foldlM (fun acc m => (GenerateMethod R root m).map (fun kv => mapSet acc kv.1 kv.2))
          []) ∧
    (∀ fs : List StructField, t.Kind = Kind.Struct →
      GenerateAccessors R t fs =
        some (fs.foldl (fun acc f =>
          mapSet acc (GenerateAccessor R t.Name t f).1 (GenerateAccessor R t.Name t f).2) [])) ∧
    (∀ fs : List StructField, t.Kind ≠ Kind.Struct → GenerateAccessors R t fs = none) := by
  refine ⟨(nameRoot_eq t).1, (nameRoot_eq t).2.1, ?_, ?_, ?_⟩
  · intro ms root hr
    exact GenerateMethods.loop_eq R t root hr ms []
  · intro fs hk
    unfold GenerateAccessors
    rw [if_neg (not_not.mpr hk)]
    exact GenerateAccessors.loop_fold R t t.Name ((nameRoot_eq t).2.2 hk) fs []
  · intro fs hk
    unfold GenerateAccessors
    rw [if_pos hk]

/-- C15, at the unnamed pointer type `*InOnly` given to `GenerateAccessors`
with the fields `A` and `B`: the statements that compute the root give
`InOnly`, the name of the element type, and `GenerateMethods` hands that root
to its generator for the same type; `GenerateAccessors` panics in
`t.NumField()` before it computes a root or calls `GenerateAccessor`, so no
accessor is generated.  On the struct type `InOnly` itself it generates both
accessors with the root `InOnly`. -/
theorem GenerateAccessors_pointer_panics :
    Sample.ptrInOnlyT.Name = "" ∧ Sample.ptrInOnlyT.Kind = Kind.Ptr ∧
    Sample.ptrInOnlyT.Elem.map GoType.Name = some "InOnly" ∧
    nameRoot Sample.ptrInOnlyT = some "InOnly" ∧
    (GenerateMethods Sample.runtime Sample.ptrInOnlyT [Sample.inOnlyTest1]).map
      (fun result => result.map Prod.fst) = some ["InOnly_Test1/2"] ∧
    (GenerateAccessors Sample.runtime Sample.ptrInOnlyT [Sample.fieldA, Sample.fieldB]).map
      (fun result => result.map Prod.fst) = none ∧
    (GenerateAccessors Sample.runtime Sample.inOnlyT [Sample.fieldA, Sample.fieldB]).map
      (fun result => result.map Prod.fst) = some ["InOnly_A/2", "InOnly_B/2"] := by
  refine ⟨rfl, rfl, rfl, ?_, ?_, rfl, ?_⟩ <;> decide

/-- The test `TestNoInOut` on the sample host: for `*NoInOut` the root is
`NoInOut`, and `GenerateMethods` returns the one predicate of `Test`, of
arity 1. -/
theorem GenerateMethods_noInOut_sample :
    nameRoot Sample.ptrNoInOutT = some "NoInOut" ∧
    (GenerateMethods Sample.runtime Sample.ptrNoInOutT [Sample.noInOutTest]).map
      (fun result => result.map Prod.fst) = some ["NoInOut_Test/1"] := by
  constructor <;> decide

/-! ### Index safety -/

/-- When every input position is within the argument list, the only panic of
the loop of `Signature.Args` is that of `reflect.Value.Set`: no `args[i]` is
read out of range. -/
theorem Signature.argsLoop_fault (R : Runtime Val W Host) (args : List Term) :
    ∀ (ins : List GoType) (i : Nat) (result : List Val) (watchers : List W) (log : List Event)
      (f : Fault),
    (Signature.argsLoop R args ins i result watchers log).1 = ArgsResult.panics f →
    i + ins.length ≤ args.length → f = Fault.setNotAssignable := by
  intro ins
  induction ins with
  | nil =>
    intro i result watchers log f h _
    simp [Signature.argsLoop] at h
  | cons t rest ih =>
    intro i result watchers log f h hlen
    simp only [List.length_cons] at hlen
    unfold Signature.argsLoop at h
    by_cases hc : (canElement t && decide (t.Kind ≠ Kind.Ptr)) = true
    · rw [if_pos hc] at h
      simp only [ArgsResult.panics.injEq] at h
      exact h.symm
    · rw [if_neg hc] at h
      have hi : i < args.length := by omega
      rw [List.get?_eq_getElem?, List.getElem?_eq_getElem hi] at h
      simp only at h
      cases hd : R.Decode t (canElement t) args[i] with
      | none =>
        rw [hd] at h
        simp at h
      | some p =>
        obtain ⟨v, w0⟩ := p
        rw [hd] at h
        simp only at h
        exact ih (i + 1) _ _ _ f h (by omega)

/-- C18: for a dispatcher whose signature is `NewSignature` of its method
and an argument list that `Signature.IsValid` accepts, the list has
`NumIn + NumOut` terms, so every `args[i]` that `Signature.Args` reads
(`i < NumIn`) is within the list, the return values (one per result of the
method, as `reflect.Value.Call` returns them) are no more than the terms, and
`args[len(args)-len(res):]` is within bounds; `Predicate` raises neither an
index nor a slice-bounds panic. -/
theorem ForeignCall.Predicate_in_range (R : Runtime Val W Host) (fc : ForeignCall Val Host)
    (m : Native.Method Val Host) (args : List Term) (w : World Host)
    (hsig : NewSignature m = some fc.Signature)
    (hm : fc.Method = some m)
    (hv : Signature.IsValid R fc.Signature args = some true)
    (hres : ∀ fargs host, (m.Func fargs host).1.length = m.Typ.NumOut) :
    args.length = m.Typ.NumIn + m.Typ.NumOut ∧
    (∀ i, i < m.Typ.NumIn → ∃ a, args.get? i = some a) ∧
    (∀ fargs host, (m.Func fargs host).1.length ≤ args.length ∧
      args.length - (m.Func fargs host).1.length ≤ args.length) ∧
    (∀ f, (Signature.Args R fc.Signature m args).1 = ArgsResult.panics f →
      f = Fault.setNotAssignable) ∧
    (ForeignCall.Predicate R fc args w).1 ≠ Outcome.panics Fault.indexOutOfRange ∧
    (ForeignCall.Predicate R fc args w).1 ≠ Outcome.panics Fault.sliceBounds := by
  have hlen : args.length = m.Typ.NumIn + m.Typ.NumOut := by
    rw [Signature.IsValid_length R _ _ hv, NewSignature_some_length m _ hsig]
  have hfit : ∀ fargs host, (m.Func fargs host).1.length ≤ args.length := by
    intro fargs host
    rw [hres, hlen]
    omega
  have hargs : ∀ f, (Signature.Args R fc.Signature m args).1 = ArgsResult.panics f →
      f = Fault.setNotAssignable := by
    intro f hf
    unfold Signature.Args at hf
    exact Signature.argsLoop_fault R args m.Typ.ins 0 [] [] [] f hf
      (by simp only [MethodType.NumIn] at hlen; omega)
  have hrun : (ForeignCall.Predicate R fc args w).1 ≠ Outcome.panics Fault.indexOutOfRange ∧
      (ForeignCall.Predicate R fc args w).1 ≠ Outcome.panics Fault.sliceBounds := by
    unfold ForeignCall.Predicate
    rw [hv, hm]
    simp only
    cases hA : Signature.Args R fc.Signature m args with
    | mk r evs =>
      cases r with
      | panics f =>
        have hf := hargs f (by rw [hA])
        subst hf
        simp
      | err => simp
      | ok fargs watchers =>
        simp only
        rw [if_neg (Nat.not_lt.mpr (hfit fargs w.host)),
          ForeignCall.encodeLoop_eq R _ _ 0 []
            (by rw [List.length_drop, Nat.zero_add]
                exact (Nat.sub_sub_self (hfit fargs w.host)).ge)]
        simp only
        by_cases hal : watchers.length > (Watchers.Variables R watchers).length
        · rw [if_pos hal]
          simp
        · rw [if_neg hal]
          simp
  refine ⟨hlen, ?_, fun fargs host => ⟨hfit fargs host, Nat.sub_le _ _⟩, hargs, hrun⟩
  intro i hi
  have hi2 : i < args.length := by omega
  exact ⟨args[i], by rw [List.get?_eq_getElem?, List.getElem?_eq_getElem hi2]⟩

/-- Witness of C18: `Swap`, with two inputs and one return value, called
with three terms. -/
theorem ForeignCall.Predicate_in_range_witness :
    [Term.Compound "io" [Term.Variable 1, Term.Variable 2], Term.Integer 42,
      Term.Variable 9].length = Sample.inOnlySwap.Typ.NumIn + Sample.inOnlySwap.Typ.NumOut ∧
    (ForeignCall.Predicate Sample.runtime (Sample.dispatcher "InOnly" Sample.inOnlySwap)
      [Term.Compound "io" [Term.Variable 1, Term.Variable 2], Term.Integer 42, Term.Variable 9]
      Sample.world0).1 ≠ Outcome.panics Fault.indexOutOfRange ∧
    (ForeignCall.Predicate Sample.runtime (Sample.dispatcher "InOnly" Sample.inOnlySwap)
      [Term.Compound "io" [Term.Variable 1, Term.Variable 2], Term.Integer 42, Term.Variable 9]
      Sample.world0).1 ≠ Outcome.panics Fault.sliceBounds :=
  have h := ForeignCall.Predicate_in_range Sample.runtime
    (Sample.dispatcher "InOnly" Sample.inOnlySwap) Sample.inOnlySwap
    [Term.Compound "io" [Term.Variable 1, Term.Variable 2], Term.Integer 42, Term.Variable 9]
    Sample.world0 rfl rfl rfl (fun _ _ => rfl)
  ⟨h.1, h.2.2.2.2⟩

/-! ### Aliased watchers -/

/-- Validation does not ask the watchers. -/
theorem Signature.isValidLoop_withWatchers (R : Runtime Val W Host)
    (hasChanged : Host → W → Bool) (value : Host → W → Val) (args : List Term) :
    ∀ (s : List Argument) (i : Nat),
    Signature.isValidLoop (R.withWatchers hasChanged value) args s i =
      Signature.isValidLoop R args s i := by
  intro s
  induction s with
  | nil =>
    intro i
    rfl
  | cons a rest ih =>
    intro i
    unfold Signature.isValidLoop
    have ha : ∀ t, Argument.IsValid (R.withWatchers hasChanged value) a t =
        Argument.IsValid R a t := by
      intro t
      cases a <;> rfl
    simp only [ha, ih]

/-- Decoding does not ask the watchers. -/
theorem Signature.argsLoop_withWatchers (R : Runtime Val W Host)
    (hasChanged : Host → W → Bool) (value : Host → W → Val) (args : List Term) :
    ∀ (ins : List GoType) (i : Nat) (result : List Val) (watchers : List W) (log : List Event),
    Signature.argsLoop (R.withWatchers hasChanged value) args ins i result watchers log =
      Signature.argsLoop R args ins i result watchers log := by
  intro ins
  induction ins with
  | nil =>
    intro i result watchers log
    rfl
  | cons t rest ih =>
    intro i result watchers log
    unfold Signature.argsLoop
    simp only [ih]
    rfl

/-- Past validation and decoding, with return values that fit the argument
list, `Predicate` panics exactly when there are more watchers than distinct
Variables among them. -/
theorem ForeignCall.Predicate_aliased_iff (R : Runtime Val W Host)
    (fc : ForeignCall Val Host) (m : Native.Method Val Host) (args : List Term) (w : World Host)
    (fargs : List Val) (watchers : List W) (evs : List Event)
    (hv : Signature.IsValid R fc.Signature args = some true)
    (hm : fc.Method = some m)
    (hd : Signature.Args R fc.Signature m args = (ArgsResult.ok fargs watchers, evs))
    (hl : (m.Func fargs w.host).1.length ≤ args.length) :
    (∃ f, (ForeignCall.Predicate R fc args w).1 = Outcome.panics f) ↔
      (Watchers.Variables R watchers).length < watchers.length := by
  constructor
  · rintro ⟨f, hf⟩
    by_contra hno
    rw [ForeignCall.Predicate_run R fc m args w fargs watchers evs hv hm hd hl
      (Nat.le_of_not_lt hno)] at hf
    simp at hf
  · intro hal
    exact ⟨Fault.notImplemented,
      by rw [(ForeignCall.Predicate_aliased R fc m args w fargs watchers evs hv hm hd hal).1 hl]⟩

/-- When there are no more watchers than distinct Variables among them, each
Variable that is watched has one watcher. -/
theorem Watchers.one_watcher (R : Runtime Val W Host) (watchers : List W)
    (h : watchers.length ≤ (Watchers.Variables R watchers).length) :
    ∀ x ∈ watchers, (watchers.map R.Variable).count (R.Variable x) = 1 := by
  have hsub := List.dedup_sublist (watchers.map R.Variable)
  have heq : (watchers.map R.Variable).dedup = watchers.map R.Variable :=
    hsub.eq_of_length_le (by simpa [Watchers.Variables] using h)
  have hnd : (watchers.map R.Variable).Nodup := List.dedup_eq_self.mp heq
  intro x hx
  exact List.count_eq_one_of_mem hnd (List.mem_map_of_mem R.Variable hx)

/-- C19: past validation and decoding (with return values that fit the
argument list, as for every generated dispatcher), `Predicate` panics if and
only if the watchers that decoding produced are more than the distinct
Variables among them; the same holds whatever `HasChanged` and `Value`
answer.  When it panics, it is with "Not implemented", after the one
invocation of the method, whose effect on the host memory stays.  When it
does not panic, it returns a unification request and every watched Variable
has exactly one watcher. -/
theorem ForeignCall.Predicate_panics_iff (R : Runtime Val W Host)
    (fc : ForeignCall Val Host) (m : Native.Method Val Host) (args : List Term) (w : World Host)
    (fargs : List Val) (watchers : List W) (evs : List Event)
    (hv : Signature.IsValid R fc.Signature args = some true)
    (hm : fc.Method = some m)
    (hd : Signature.Args R fc.Signature m args = (ArgsResult.ok fargs watchers, evs))
    (hl : (m.Func fargs w.host).1.length ≤ args.length) :
    ((∃ f, (ForeignCall.Predicate R fc args w).1 = Outcome.panics f) ↔
      (Watchers.Variables R watchers).length < watchers.length) ∧
    (∀ (hasChanged : Host → W → Bool) (value : Host → W → Val),
      (∃ f, (ForeignCall.Predicate (R.withWatchers hasChanged value) fc args w).1 =
        Outcome.panics f) ↔
      (Watchers.Variables R watchers).length < watchers.length) ∧
    ((Watchers.Variables R watchers).length < watchers.length →
      ForeignCall.Predicate R fc args w = (Outcome.panics Fault.notImplemented,
        ⟨(m.Func fargs w.host).2, w.log ++ evs ++ [Event.invoke]⟩) ∧
      invocations (ForeignCall.Predicate R fc args w).2.log = invocations w.log + 1) ∧
    (watchers.length ≤ (Watchers.Variables R watchers).length →
      (∃ ts, (ForeignCall.Predicate R fc args w).1 = Outcome.ForeignUnify ts) ∧
      invocations (ForeignCall.Predicate R fc args w).2.log = invocations w.log + 1 ∧
      ∀ x ∈ watchers, (watchers.map R.Variable).count (R.Variable x) = 1) := by
  have hevs : List.count Event.invoke evs = 0 := by
    unfold Signature.Args at hd
    obtain ⟨_, _, _, _, _, hev⟩ :=
      Signature.argsLoop_ok R args m.Typ.ins 0 [] [] [] fargs watchers evs hd
    rw [hev]
    simp [List.count_eq_zero]
  have hinv : invocations (w.log ++ evs ++ [Event.invoke]) = invocations w.log + 1 := by
    simp [invocations, List.count_append, hevs]
  refine ⟨ForeignCall.Predicate_aliased_iff R fc m args w fargs watchers evs hv hm hd hl,
    ?_, ?_, ?_⟩
  · intro hasChanged value
    have hv2 : Signature.IsValid (R.withWatchers hasChanged value) fc.Signature args =
        some true := by
      unfold Signature.IsValid at hv ⊢
      rw [Signature.isValidLoop_withWatchers]
      exact hv
    have hd2 : Signature.Args (R.withWatchers hasChanged value) fc.Signature m args =
        (ArgsResult.ok fargs watchers, evs) := by
      unfold Signature.Args at hd ⊢
      rw [Signature.argsLoop_withWatchers]
      exact hd
    exact ForeignCall.Predicate_aliased_iff (R.withWatchers hasChanged value) fc m args w
      fargs watchers evs hv2 hm hd2 hl
  · intro hal
    have hrun := (ForeignCall.Predicate_aliased R fc m args w fargs watchers evs hv hm hd hal).1 hl
    refine ⟨hrun, ?_⟩
    rw [hrun]
    exact hinv
  · intro hno
    have hrun := ForeignCall.Predicate_run R fc m args w fargs watchers evs hv hm hd hl hno
    refine ⟨⟨_, by rw [hrun]⟩, ?_, Watchers.one_watcher R watchers hno⟩
    rw [hrun]
    exact hinv

/-- Witness of C19: `Test1` on the receiver `io(X1, X1)`: two watchers of
one Variable, of which only the first has changed after the call; `Predicate`
panics, and cell 0 of the host keeps the 42 that the method stored. -/
theorem ForeignCall.Predicate_panics_iff_witness :
    (Sample.runtime.HasChanged [42, 0, 0] ⟨1, 0, 0⟩ = true ∧
      Sample.runtime.HasChanged [42, 0, 0] ⟨1, 1, 0⟩ = false) ∧
    ForeignCall.Predicate Sample.runtime (Sample.dispatcher "InOnly" Sample.inOnlyTest1)
      [Term.Compound "io" [Term.Variable 1, Term.Variable 1], Term.Integer 42] Sample.world0 =
      (Outcome.panics Fault.notImplemented,
        ⟨[42, 0, 0], [Event.decode 0, Event.decode 1, Event.invoke]⟩) :=
  ⟨⟨rfl, rfl⟩, ((ForeignCall.Predicate_panics_iff Sample.runtime
    (Sample.dispatcher "InOnly" Sample.inOnlyTest1) Sample.inOnlyTest1
    [Term.Compound "io" [Term.Variable 1, Term.Variable 1], Term.Integer 42] Sample.world0
    [0, 42] [⟨1, 0, 0⟩, ⟨1, 1, 0⟩] [Event.decode 0, Event.decode 1]
    rfl rfl rfl (by decide)).2.2.1 (by decide)).1⟩

end Native
